import Mathlib

/-!
Shallow embedding of the mod_turbotab call-center calculation engine
(src/utils.py, src/exceptions.py, src/calculations/erlang.py,
src/calculations/traffic.py, src/queues/queues.py, src/agents/capacity.py,
src/trunks/trunks.py) over exact rational arithmetic, together with proofs
about the claims of the specification.

Modelling conventions:
* Python floats are modelled as `ℚ` (exact arithmetic).
* `math.exp` is not a rational function; every definition that uses it is
  parametrised by an abstract evaluator `E : ℚ → ℚ`, and the theorems carry
  rational bounds on `E` at the finitely many points where the program
  evaluates it.
* Functions that can raise return `PyRes`: `.invalidInput` models
  `InputValidationError`, `.calcError` models `CalculationError`, and
  `.unboundLocal` models the `UnboundLocalError` that `erlang_b`,
  `erlang_b_ext` and `engset_b` raise when their `for` loop runs zero times
  (for `0 ≤ servers < 1`) and the local variable `b` is read unassigned.
* Uncapped `while` loops are modelled with an explicit fuel parameter (the
  capped loops use their source cap as fuel).
* In `ℚ`, division by zero yields 0 where Python would raise
  `ZeroDivisionError`.  Each place where this matters is either guarded
  explicitly in the model (mirroring the reachable Python behaviour) or noted
  in a comment next to the definition.
-/

/-- Result of a Python call: a value, or one of the exceptions the source
can raise (`InputValidationError`, `CalculationError`, or the
`UnboundLocalError` slip in the Erlang evaluators). -/
inductive PyRes (α : Type) where
  | ok (val : α)
  | invalidInput
  | calcError
  | unboundLocal
deriving DecidableEq

/-- src/utils.py `min_max`: `max(min(val, max_val), min_val)`. -/
def min_max (val min_val max_val : ℚ) : ℚ := max (min val max_val) min_val

/-- Python `int()` truncation toward zero on an exact rational. -/
def pyInt (q : ℚ) : ℤ := if q < 0 then ⌈q⌉ else ⌊q⌋

/-- src/utils.py `int_ceiling`: `int(val - 0.9999) if val < 0 else int(val + 0.9999)`. -/
def int_ceiling (val : ℚ) : ℤ :=
  if val < 0 then pyInt (val - 9999/10000) else pyInt (val + 9999/10000)

/-- src/utils.py `secs`: `int(amount * interval + 0.5)` with default scale 600. -/
def secs (amount : ℚ) (interval : ℚ := 600) : ℤ := pyInt (amount * interval + 1/2)

/-- Modelled from the spec: the module `mod_turbotab.config` is not under
src/ (only its importers are).  The spec fixes the reporting interval as a
process-wide constant in seconds, "e.g. 3600" (section 3, TimeInterval). -/
def INTERVAL : ℚ := 3600

/-- src/calculations/traffic.py `MAX_ACCURACY = 0.00001`. -/
def MAX_ACCURACY : ℚ := 1/100000

/-- Modelled from the spec: `mod_turbotab.config.MAX_ACCURACY` is not under
src/.  The spec (section 6) says a single process-wide accuracy threshold is
used both as the convergence tolerance and as the "close enough to
certainty" cutoff; the convergence tolerance in src/calculations/traffic.py
is 1e-5, so the same value is used here. -/
def config_MAX_ACCURACY : ℚ := 1/100000

/-- The Erlang B recurrence computed by the loop in `erlang_b`
(src/calculations/erlang.py): `last = 1.0`, then
`b = (intensity*last) / (count + intensity*last)` for `count = 1..n`. -/
def brec (intensity : ℚ) : ℕ → ℚ
  | 0 => 1
  | k + 1 => (intensity * brec intensity k) / (((k : ℚ) + 1) + intensity * brec intensity k)

/-- src/calculations/erlang.py `erlang_b`.  For `servers < 0 or intensity < 0`
it returns 0.0.  `max_iterate = int(servers)` (truncation = floor, since
`servers ≥ 0` here); when `max_iterate < 1` the loop body never runs and the
`return min_max(b, 0.0, 1.0)` line reads the unassigned local `b`, raising
`UnboundLocalError`. -/
def erlang_b (servers intensity : ℚ) : PyRes ℚ :=
  if servers < 0 ∨ intensity < 0 then .ok 0
  else if (⌊servers⌋).toNat < 1 then .unboundLocal
  else .ok (min_max (brec intensity (⌊servers⌋).toNat) 0 1)

/-- The value `erlang_b` returns on its non-raising path. -/
def erlang_b_val (servers intensity : ℚ) : ℚ :=
  min_max (brec intensity (⌊servers⌋).toNat) 0 1

/-- src/calculations/erlang.py `erlang_c`.  Negative inputs give 0.0;
otherwise `b = erlang_b(servers, intensity)` (whose `UnboundLocalError`
propagates, since erlang.py has no try/except), then
`c = b / ((intensity/servers)*b + (1 - (intensity/servers)))` clamped.
The denominator is strictly positive whenever `erlang_b` returned normally
(proved below as `erlang_c_den_pos`), so the Python division cannot raise
here. -/
def erlang_c (servers intensity : ℚ) : PyRes ℚ :=
  if servers < 0 ∨ intensity < 0 then .ok 0
  else match erlang_b servers intensity with
    | .ok b => .ok (min_max (b / ((intensity / servers) * b + (1 - intensity / servers))) 0 1)
    | e => e

/-- The value `erlang_c` returns on its non-raising path. -/
def erlang_c_val (servers intensity : ℚ) : ℚ :=
  min_max ((erlang_b_val servers intensity) /
    ((intensity / servers) * (erlang_b_val servers intensity) + (1 - intensity / servers))) 0 1

/-- The extended Erlang B recurrence of `erlang_b_ext`
(src/calculations/erlang.py): at each step the blocked fraction retries. -/
def bext_rec (intensity retries : ℚ) : ℕ → ℚ
  | 0 => 1
  | k + 1 =>
    let last := bext_rec intensity retries k
    let b := (intensity * last) / (((k : ℚ) + 1) + intensity * last)
    let attempts := 1 / (1 - b * retries)
    (intensity * last * attempts) / (((k : ℚ) + 1) + intensity * last * attempts)

/-- src/calculations/erlang.py `erlang_b_ext`; same unassigned-`b` behaviour
as `erlang_b` when `int(servers) < 1`. -/
def erlang_b_ext (servers intensity retry : ℚ) : PyRes ℚ :=
  if servers < 0 ∨ intensity < 0 then .ok 0
  else if (⌊servers⌋).toNat < 1 then .unboundLocal
  else .ok (min_max (bext_rec intensity (min_max retry 0 1) (⌊servers⌋).toNat) 0 1)

/-- The Engset recurrence of `engset_b` (src/calculations/erlang.py):
`b = (last * (count / ((ev - count) * val))) + 1`.  In Python a step with
`ev = count` raises `ZeroDivisionError`; in `ℚ` that quotient is 0 (the
claims proved about `engset_b` below concern only the clamped range of the
returned value, which is unaffected). -/
def engset_rec (events intensity : ℚ) : ℕ → ℚ
  | 0 => 1
  | k + 1 => engset_rec events intensity k * (((k : ℚ) + 1) / ((events - ((k : ℚ) + 1)) * intensity)) + 1

/-- src/calculations/erlang.py `engset_b`; same unassigned-`b` behaviour as
`erlang_b` when `int(servers) < 1`. -/
def engset_b (servers events intensity : ℚ) : PyRes ℚ :=
  if servers < 0 ∨ intensity < 0 then .ok 0
  else if (⌊servers⌋).toNat < 1 then .unboundLocal
  else
    let b := engset_rec events intensity (⌊servers⌋).toNat
    if b = 0 then .ok 0 else .ok (min_max (1 / b) 0 1)



/-- src/queues/queues.py `queued`: validates inputs, evaluates Erlang C on
`traffic_rate = calls_per_hour / (INTERVAL / aht)` and clamps; any exception
inside the `try` block (only the `UnboundLocalError` propagated out of
`erlang_c`) becomes a `CalculationError`. -/
def queued (agents calls_per_hour aht : ℚ) : PyRes ℚ :=
  if agents < 0 ∨ calls_per_hour < 0 ∨ aht ≤ 0 then .invalidInput
  else match erlang_c agents (calls_per_hour / (INTERVAL / aht)) with
    | .ok q => .ok (min_max q 0 1)
    | _ => .calcError

/-- src/queues/queues.py `queue_time`.  The `agents = 0` guard models the
Python `ZeroDivisionError` at `utilisation = traffic_rate / agents` (caught
and re-raised as `CalculationError`).  For `agents > 0` the final divisor
`agents * death_rate * (1 - utilisation)` is strictly positive (utilisation
is either `< 1` or replaced by `0.99`), so the remaining divisions cannot
raise; this is proved in the claim-9 theorem below. -/
def queue_time (agents calls_per_hour aht : ℚ) : PyRes ℤ :=
  if agents < 0 ∨ calls_per_hour < 0 ∨ aht ≤ 0 then .invalidInput
  else if agents = 0 then .calcError
  else
    let death_rate := INTERVAL / aht
    let traffic_rate := calls_per_hour / death_rate
    let utilisation0 := traffic_rate / agents
    let utilisation := if 1 ≤ utilisation0 then 99/100 else utilisation0
    .ok (secs (1 / (agents * death_rate * (1 - utilisation))))

/-- src/queues/queues.py `service_time`.  After the Erlang C evaluation the
source raises `CalculationError` when `c < (1 - sla)`; the `c = 0` guard
afterwards models the Python `ZeroDivisionError` at `(1 - sla) / c` (also
re-raised as `CalculationError`).  A failing `erlang_c` (unbound local `b`
for `0 ≤ agents < 1`) is caught by the `except` and becomes a
`CalculationError` as well. -/
def service_time (agents sla calls_per_hour aht : ℚ) : PyRes ℤ :=
  if agents < 0 ∨ sla < 0 ∨ calls_per_hour < 0 ∨ aht ≤ 0 then .invalidInput
  else
    let death_rate := INTERVAL / aht
    let traffic_rate := calls_per_hour / death_rate
    match erlang_c agents traffic_rate with
    | .ok c =>
      if c < 1 - sla then .calcError
      else if c = 0 then .calcError
      else
        let utilisation0 := traffic_rate / agents
        let utilisation := if 1 ≤ utilisation0 then 99/100 else utilisation0
        let qtime := 1 / (agents * death_rate * (1 - utilisation)) * INTERVAL
        let stime := qtime * (1 - (1 - sla) / c)
        let adjust := if stime < 0 then (1 : ℚ) else 0
        .ok (pyInt (stime + adjust))
    | _ => .calcError

/-- src/queues/queues.py `sla_metric`, parametrised by the `math.exp`
evaluator `E`.  The `agents = 0` guard models the `ZeroDivisionError` at
`utilisation = traffic_rate / agents` (the capped utilisation itself is
never used afterwards in the source — dead code except for that division).
-/
def sla_metric (E : ℚ → ℚ) (agents service_time_val calls_per_hour aht : ℚ) : PyRes ℚ :=
  if agents < 0 ∨ calls_per_hour < 0 ∨ aht ≤ 0 ∨ service_time_val < 0 then .invalidInput
  else if agents = 0 then .calcError
  else
    let traffic_rate := calls_per_hour / (INTERVAL / aht)
    match erlang_c agents traffic_rate with
    | .ok c => .ok (min_max (1 - c * E ((traffic_rate - agents) * service_time_val / aht)) 0 1)
    | _ => .calcError

/-- The uncapped `while utilisation >= 1: no_agents += 1` loop shared by
`agents_required`, `agents_asa` and `fractional_agents`
(src/agents/capacity.py), written with fuel.  The loop always terminates
because `no_agents` eventually exceeds `traffic_rate`; fuel `⌊t⌋ + 1` is
sufficient (`bumpLoop_spec` below), so `bump` computes exactly the loop's
result. -/
def bumpLoop (t : ℚ) : ℕ → ℕ → ℕ
  | 0, n => n
  | fuel + 1, n => if 1 ≤ t / n then bumpLoop t fuel (n + 1) else n

/-- Result of the utilisation while-loop starting from `n`. -/
def bump (t : ℚ) (n : ℕ) : ℕ := bumpLoop t ((⌊t⌋).toNat + 1) n

/-- The agent-count seed shared by `agents_required`, `agents_asa` and
`fractional_agents`: `erlangs = int(birth_rate*aht/INTERVAL + 0.5)`,
`no_agents = 1 if erlangs < 1 else int(erlangs)`, then the utilisation
while-loop. -/
def init_agents (t : ℚ) (erlangs : ℤ) : ℕ :=
  bump t (if erlangs < 1 then 1 else erlangs.toNat)

/-- The staffing ladder of `agents_required` (src/agents/capacity.py),
written with fuel `max_iterate = no_agents * 100`.  It calls
`erlang_c_val n t` directly: at every call `n ≥ 1` and `t ≥ 0`, where
`erlang_c n t = .ok (erlang_c_val n t)` (`erlang_c_ok`). -/
def ladderA (E : ℚ → ℚ) (t sla st aht : ℚ) : ℕ → ℕ → ℕ
  | 0, n => n
  | fuel + 1, n =>
    if t / n < 1 then
      let c := erlang_c_val n t
      let sl0 := 1 - c * E ((t - n) * st / aht)
      let sl := if sl0 < 0 then 0 else sl0
      if sla ≤ sl ∨ 1 - config_MAX_ACCURACY < sl then n
      else ladderA E t sla st aht fuel (n + 1)
    else ladderA E t sla st aht fuel (n + 1)

/-- src/agents/capacity.py `agents_required`, parametrised by the
`math.exp` evaluator `E`. -/
def agents_required (E : ℚ → ℚ) (sla st calls_per_hour aht : ℚ) : PyRes ℕ :=
  if sla < 0 ∨ calls_per_hour < 0 ∨ aht ≤ 0 then .invalidInput
  else
    let sla1 := min sla 1
    let traffic_rate := calls_per_hour / (INTERVAL / aht)
    let erlangs := pyInt (calls_per_hour * aht / INTERVAL + 1/2)
    let n0 := init_agents traffic_rate erlangs
    .ok (ladderA E traffic_rate sla1 st aht (n0 * 100) n0)

/-- src/agents/capacity.py `asa`.  The answer-time divisor
`agents * death_rate * (1 - utilisation)` is strictly positive for
`agents > 0` (utilisation `< 1` or capped at `0.99`), so no
`ZeroDivisionError` can occur there. -/
def asa (agents calls_per_hour aht : ℚ) : PyRes ℤ :=
  if agents ≤ 0 ∨ calls_per_hour < 0 ∨ aht ≤ 0 then .invalidInput
  else
    let death_rate := INTERVAL / aht
    let traffic_rate := calls_per_hour / death_rate
    let utilisation0 := traffic_rate / agents
    let utilisation := if 1 ≤ utilisation0 then 99/100 else utilisation0
    match erlang_c agents traffic_rate with
    | .ok c => .ok (secs (c / (agents * death_rate * (1 - utilisation))))
    | _ => .calcError

/-- The brute-force loop of `nb_agents` (src/agents/capacity.py):
`for count in range(1, 65536)`, return the first count whose `asa` is at
most the target; exhausting the range raises `CalculationError`.  An
exception propagated out of `asa` is also re-wrapped as
`CalculationError`. -/
def nbLoop (calls_ph avg_sa aht : ℚ) : ℕ → ℕ → PyRes ℕ
  | 0, _ => .calcError
  | fuel + 1, count =>
    match asa count calls_ph aht with
    | .ok v => if (v : ℚ) ≤ avg_sa then .ok count else nbLoop calls_ph avg_sa aht fuel (count + 1)
    | _ => .calcError

/-- src/agents/capacity.py `nb_agents`. -/
def nb_agents (calls_ph avg_sa avg_ht : ℚ) : PyRes ℕ :=
  if calls_ph < 0 ∨ avg_sa < 0 ∨ avg_ht ≤ 0 then .invalidInput
  else nbLoop calls_ph avg_sa avg_ht 65535 1

/-- The staffing ladder of `fractional_agents` (src/agents/capacity.py).
State `(n, slq, lastq)` is `(no_agents, sl_queued, last_slq)`; each
iteration first overwrites `last_slq` with the current `sl_queued`
(hence the incoming `lastq` is dropped in the step case), and on fuel
exhaustion the loop falls through with the current state.  Unlike
`ladderA`, this ladder also clamps `sl_queued` above at 1. -/
def ladderF (E : ℚ → ℚ) (t sla st aht : ℚ) : ℕ → ℕ → ℚ → ℚ → ℕ × ℚ × ℚ
  | 0, n, slq, lastq => (n, slq, lastq)
  | fuel + 1, n, slq, _ =>
    if t / n < 1 then
      let c := erlang_c_val n t
      let sl0 := 1 - c * E ((t - n) * st / aht)
      let sl1 := if sl0 < 0 then 0 else sl0
      let sl := if 1 < sl1 then 1 else sl1
      if sla ≤ sl ∨ 1 - config_MAX_ACCURACY < sl then (n, sl, slq)
      else ladderF E t sla st aht fuel (n + 1) sl slq
    else ladderF E t sla st aht fuel (n + 1) slq slq

/-- src/agents/capacity.py `fractional_agents`, parametrised by the
`math.exp` evaluator `E`. -/
def fractional_agents (E : ℚ → ℚ) (sla st calls_per_hour aht : ℚ) : PyRes ℚ :=
  if sla < 0 ∨ calls_per_hour < 0 ∨ aht ≤ 0 ∨ st < 0 then .invalidInput
  else
    let sla1 := min sla 1
    let traffic_rate := calls_per_hour / (INTERVAL / aht)
    let erlangs := pyInt (calls_per_hour * aht / INTERVAL + 1/2)
    let n0 := init_agents traffic_rate erlangs
    let r := ladderF E traffic_rate sla1 st aht (n0 * 100) n0 0 0
    .ok (if sla1 < r.2.1 then (sla1 - r.2.2) / (r.2.1 - r.2.2) + ((r.1 : ℚ) - 1) else (r.1 : ℚ))

/-- The digit-refinement loop of `looping_traffic`
(src/calculations/traffic.py), with state
`(increment, max_intensity, min_i, intensity)` and fuel `MAX_LOOPS = 100`.
`max_intensity` is assigned inside the loop but never read. -/
def ltLoop (trunks blocking : ℚ) : ℕ → ℚ → ℚ → ℚ → ℚ → PyRes ℚ
  | 0, _, _, min_i, _ => .ok min_i
  | fuel + 1, increment, maxI, min_i, intensity =>
    if increment < MAX_ACCURACY then .ok min_i
    else match erlang_b trunks intensity with
      | .ok b =>
        if blocking < b then
          ltLoop trunks blocking fuel (increment / 10) intensity min_i (min_i + increment / 10)
        else
          ltLoop trunks blocking fuel increment maxI intensity (intensity + increment)
      | e => e

/-- src/calculations/traffic.py `looping_traffic`; the initial candidate
intensity is `min_intensity`. -/
def looping_traffic (trunks blocking increment max_intensity min_intensity : ℚ) : PyRes ℚ :=
  ltLoop trunks blocking 100 increment max_intensity min_intensity min_intensity

/-- The `while incr <= max_i / 100: incr *= 10` loop of `traffic`
(src/calculations/traffic.py), tracked through the exponent of the current
power of ten.  The loop is uncapped in the source but always terminates;
fuel `x.num.natAbs + 1` is sufficient (`incrLoop_adequate` below). -/
def incrLoop (x : ℚ) : ℕ → ℕ → ℕ
  | 0, k => k
  | fuel + 1, k => if (10 : ℚ) ^ k ≤ x then incrLoop x fuel (k + 1) else k

/-- The initial step size `traffic` hands to `looping_traffic`, as a
function of the established upper bound `maxI`. -/
def traffic_incr (maxI : ℚ) : ℚ :=
  (10 : ℚ) ^ (incrLoop (maxI / 100) ((maxI / 100).num.natAbs + 1) 0)

/-- The upper-bound doubling loop of `traffic`
(src/calculations/traffic.py): `while b < blocking: max_i *= 2`.  The
source loop has no iteration cap; the model takes explicit fuel and
returns `none` when the loop has not exited within it.  It calls
`erlang_b_val` directly: `traffic` only reaches the loop with
`servers ≥ 1`, where `erlang_b` returns `.ok` of that value. -/
def dblLoop (servers blocking : ℚ) : ℕ → ℚ → Option ℚ
  | 0, _ => none
  | fuel + 1, maxI =>
    if erlang_b_val servers maxI < blocking then dblLoop servers blocking fuel (2 * maxI)
    else some maxI

/-- src/calculations/traffic.py `traffic`:
`trunks_val = float(int(servers))`; returns 0.0 for `servers < 1` or
`blocking < 0`; otherwise doubles the candidate upper bound, derives the
initial decimal step size, and delegates to `looping_traffic` with
`min_intensity = 0`. -/
def traffic (servers blocking : ℚ) (fuel : ℕ) : Option (PyRes ℚ) :=
  if servers < 1 ∨ blocking < 0 then some (.ok 0)
  else
    (dblLoop servers blocking fuel ((pyInt servers : ℤ) : ℚ)).map (fun maxI =>
      looping_traffic ((pyInt servers : ℤ) : ℚ) blocking (traffic_incr maxI) maxI 0)

/-- The trunk-count loop of `number_trunks` (src/trunks/trunks.py):
`for count in range(start, 65536)`, return the first count with
`erlang_b(count, intensity) < 0.001`; an exhausted range, or any
exception from `erlang_b` (unbound local `b` when `count = 0`), raises
`CalculationError`. -/
def ntLoop (intensity : ℚ) : ℕ → ℕ → PyRes ℕ
  | 0, _ => .calcError
  | fuel + 1, count =>
    match erlang_b count intensity with
    | .ok b => if b < 1/1000 then .ok count else ntLoop intensity fuel (count + 1)
    | _ => .calcError

/-- src/trunks/trunks.py `number_trunks`: validates, then searches from
`start = int_ceiling(servers)` up to 65535. -/
def number_trunks (servers intensity : ℚ) : PyRes ℕ :=
  if servers < 0 ∨ intensity < 0 then .invalidInput
  else ntLoop intensity (65536 - int_ceiling servers).toNat (int_ceiling servers).toNat

/-- A constant stand-in for `math.exp`, usable where a claim does not
depend on the exponential values. -/
def constOneExp : ℚ → ℚ := fun _ => 1

/-- Value of a result, with a default for the exception cases. -/
def PyRes.getD {α : Type} (r : PyRes α) (d : α) : α :=
  match r with
  | .ok v => v
  | _ => d

/-- Whether a result is a normal return. -/
def PyRes.isOk {α : Type} (r : PyRes α) : Bool :=
  match r with
  | .ok _ => true
  | _ => false

/-- A concrete rational stand-in for `math.exp`, agreeing with the true
exponential to five candidate digits at the four points the representative
run evaluates it. -/
def expApprox : ℚ → ℚ := fun q =>
  if q = (-1 : ℚ)/9 then 89484/100000
  else if q = (-2 : ℚ)/9 then 80074/100000
  else if q = (-1 : ℚ)/3 then 71653/100000
  else if q = (-4 : ℚ)/9 then 64118/100000
  else 1

/-- The service-level sample the staffing ladders compute at agent count
`n` (including both clamps of the fractional ladder). -/
def slaSample (E : ℚ → ℚ) (t st aht : ℚ) (n : ℕ) : ℚ :=
  let sl0 := 1 - erlang_c_val (n : ℚ) t * E ((t - (n : ℚ)) * st / aht)
  let sl1 := if sl0 < 0 then 0 else sl0
  if 1 < sl1 then 1 else sl1

/-- The full final state of the `fractional_agents` ladder. -/
def ladder_state (E : ℚ → ℚ) (sla st cph aht : ℚ) : ℕ × ℚ × ℚ :=
  let t := cph / (INTERVAL / aht)
  let n0 := init_agents t (pyInt (cph * aht / INTERVAL + 1/2))
  ladderF E t (min sla 1) st aht (n0 * 100) n0 0 0

/-- The unclamped-above service-level sample (what `agents_required`'s
ladder computes; `fractional_agents` additionally clamps it at 1). -/
def slaSampleRaw (E : ℚ → ℚ) (t st aht : ℚ) (n : ℕ) : ℚ :=
  let sl0 := 1 - erlang_c_val (n : ℚ) t * E ((t - (n : ℚ)) * st / aht)
  if sl0 < 0 then 0 else sl0

section BasicLemmas

theorem min_max_nonneg (x hi : ℚ) : 0 ≤ min_max x 0 hi := le_max_right _ _

theorem min_max_le_one (x : ℚ) : min_max x 0 1 ≤ 1 := by
  unfold min_max
  exact max_le (min_le_right _ _) (by norm_num)

theorem min_max_mem (x : ℚ) : 0 ≤ min_max x 0 1 ∧ min_max x 0 1 ≤ 1 :=
  ⟨min_max_nonneg x 1, min_max_le_one x⟩

theorem min_max_eq_self {x : ℚ} (h0 : 0 ≤ x) (h1 : x ≤ 1) : min_max x 0 1 = x := by
  unfold min_max
  rw [min_eq_left h1, max_eq_left h0]

theorem brec_nonneg {i : ℚ} (hi : 0 ≤ i) : ∀ k, 0 ≤ brec i k := by
  intro k
  induction k with
  | zero => norm_num [brec]
  | succ k ih =>
    have hb : 0 ≤ i * brec i k := mul_nonneg hi ih
    have hk : (0 : ℚ) < (k : ℚ) + 1 := by positivity
    have hden : (0 : ℚ) < ((k : ℚ) + 1) + i * brec i k := by linarith
    rw [brec]
    exact div_nonneg hb (le_of_lt hden)

theorem brec_le_one {i : ℚ} (hi : 0 ≤ i) : ∀ k, brec i k ≤ 1 := by
  intro k
  induction k with
  | zero => norm_num [brec]
  | succ k ih =>
    have hb : 0 ≤ brec i k := brec_nonneg hi k
    have hmul : 0 ≤ i * brec i k := mul_nonneg hi hb
    have hk : (0 : ℚ) < (k : ℚ) + 1 := by positivity
    have hden : (0 : ℚ) < ((k : ℚ) + 1) + i * brec i k := by linarith
    rw [brec, div_le_one hden]
    linarith

theorem brec_pos {i : ℚ} (hi : 0 < i) : ∀ k, 0 < brec i k := by
  intro k
  induction k with
  | zero => norm_num [brec]
  | succ k ih =>
    have hmul : 0 < i * brec i k := mul_pos hi ih
    have hk : (0 : ℚ) < (k : ℚ) + 1 := by positivity
    have hden : (0 : ℚ) < ((k : ℚ) + 1) + i * brec i k := by linarith
    rw [brec]
    exact div_pos hmul hden

/-- The key invariant of the Erlang B recurrence:
`intensity * (1 - B(k)) < k + 1`. -/
theorem brec_inv {i : ℚ} (hi : 0 ≤ i) : ∀ k : ℕ, i * (1 - brec i k) < (k : ℚ) + 1 := by
  intro k
  induction k with
  | zero => norm_num [brec]
  | succ k ih =>
    have hB0 : 0 ≤ brec i k := brec_nonneg hi k
    have hiB : 0 ≤ i * brec i k := mul_nonneg hi hB0
    have hk1 : (0 : ℚ) < (k : ℚ) + 1 := by positivity
    have hd : (0 : ℚ) < ((k : ℚ) + 1) + i * brec i k := by linarith
    have hrw : (1 : ℚ) - (i * brec i k) / (((k : ℚ) + 1) + i * brec i k)
        = ((k : ℚ) + 1) / (((k : ℚ) + 1) + i * brec i k) := by
      field_simp
    rw [brec, hrw, ← mul_div_assoc, div_lt_iff hd]
    push_cast
    nlinarith [mul_lt_mul_of_pos_right ih hk1, hiB]

/-- Sharper form of the invariant for `k ≥ 1`:
`intensity * (1 - B(k)) < k`. -/
theorem brec_inv_lt_self {i : ℚ} (hi : 0 ≤ i) (k : ℕ) (hk : 1 ≤ k) :
    i * (1 - brec i k) < (k : ℚ) := by
  cases k with
  | zero => omega
  | succ j =>
    have hB0 : 0 ≤ brec i j := brec_nonneg hi j
    have hiB : 0 ≤ i * brec i j := mul_nonneg hi hB0
    have hj1 : (0 : ℚ) < (j : ℚ) + 1 := by positivity
    have hd : (0 : ℚ) < ((j : ℚ) + 1) + i * brec i j := by linarith
    have hiv := brec_inv hi j
    have hrw : (1 : ℚ) - (i * brec i j) / (((j : ℚ) + 1) + i * brec i j)
        = ((j : ℚ) + 1) / (((j : ℚ) + 1) + i * brec i j) := by
      field_simp
    rw [brec, hrw, ← mul_div_assoc, div_lt_iff hd]
    push_cast
    nlinarith [mul_lt_mul_of_pos_right hiv hj1, mul_nonneg hiB (le_of_lt hj1)]

/-- Lower bound on the Erlang B recurrence: `1 - (k+1)/intensity < B(k)`. -/
theorem brec_lb {i : ℚ} (hi : 0 < i) (k : ℕ) : 1 - ((k : ℚ) + 1) / i < brec i k := by
  have h := brec_inv (le_of_lt hi) k
  have h2 : 1 - brec i k < ((k : ℚ) + 1) / i := by
    rw [lt_div_iff hi]
    linarith [h, mul_comm i (1 - brec i k)]
  linarith

/-- One step of monotonicity: `B(k+1) ≤ B(k)`. -/
theorem brec_succ_le {i : ℚ} (hi : 0 ≤ i) (k : ℕ) : brec i (k + 1) ≤ brec i k := by
  have hB0 : 0 ≤ brec i k := brec_nonneg hi k
  have hiB : 0 ≤ i * brec i k := mul_nonneg hi hB0
  have hk1 : (0 : ℚ) < (k : ℚ) + 1 := by positivity
  have hd : (0 : ℚ) < ((k : ℚ) + 1) + i * brec i k := by linarith
  have hiv := brec_inv hi k
  rw [brec, div_le_iff hd]
  nlinarith [hiv, hB0, mul_nonneg hB0 (le_of_lt hk1)]

/-- The Erlang B recurrence is non-increasing in the number of servers. -/
theorem brec_anti {i : ℚ} (hi : 0 ≤ i) {k1 k2 : ℕ} (h : k1 ≤ k2) :
    brec i k2 ≤ brec i k1 := by
  induction k2 with
  | zero =>
    have h0 : k1 = 0 := by omega
    subst h0
    exact le_refl _
  | succ k ih =>
    rcases Nat.lt_or_ge k1 (k + 1) with hlt | hge
    · exact le_trans (brec_succ_le hi k) (ih (by omega))
    · have : k1 = k + 1 := by omega
      subst this
      exact le_refl _

theorem floor_toNat_natCast (n : ℕ) : (⌊(n : ℚ)⌋).toNat = n := by
  rw [Int.floor_natCast, Int.toNat_natCast]

theorem floor_toNat_pos {s : ℚ} (hs : 1 ≤ s) : 1 ≤ (⌊s⌋).toNat := by
  have h1 : (1 : ℤ) ≤ ⌊s⌋ := by
    rw [Int.le_floor]
    exact_mod_cast hs
  omega

theorem floor_toNat_le {s : ℚ} (hs : 1 ≤ s) : ((⌊s⌋).toNat : ℚ) ≤ s := by
  have h1 : (1 : ℤ) ≤ ⌊s⌋ := by
    rw [Int.le_floor]
    exact_mod_cast hs
  have h2 : ((⌊s⌋).toNat : ℤ) = ⌊s⌋ := Int.toNat_of_nonneg (by omega)
  have h3 : ((⌊s⌋.toNat : ℤ) : ℚ) ≤ s := by
    rw [h2]
    exact Int.floor_le s
  exact_mod_cast h3

theorem erlang_b_ok {s i : ℚ} (hs : 1 ≤ s) (hi : 0 ≤ i) :
    erlang_b s i = .ok (erlang_b_val s i) := by
  unfold erlang_b
  rw [if_neg (by push_neg; constructor <;> linarith), if_neg (by
    have := floor_toNat_pos hs
    omega)]
  rfl

theorem erlang_b_val_eq {s i : ℚ} (hs : 1 ≤ s) (hi : 0 ≤ i) :
    erlang_b_val s i = brec i ((⌊s⌋).toNat) :=
  min_max_eq_self (brec_nonneg hi _) (brec_le_one hi _)

theorem erlang_b_val_mem (s i : ℚ) : 0 ≤ erlang_b_val s i ∧ erlang_b_val s i ≤ 1 :=
  min_max_mem _

/-- The Erlang C denominator is strictly positive whenever `erlang_b`
returned normally (`servers ≥ 1`, `intensity ≥ 0`): the source division
cannot raise `ZeroDivisionError` there. -/
theorem erlang_c_den_pos {s i : ℚ} (hs : 1 ≤ s) (hi : 0 ≤ i) :
    0 < (i / s) * (erlang_b_val s i) + (1 - i / s) := by
  set n := (⌊s⌋).toNat with hn
  have hnge : 1 ≤ n := floor_toNat_pos hs
  have hncast : (1 : ℚ) ≤ (n : ℚ) := by exact_mod_cast hnge
  have hns : (n : ℚ) ≤ s := floor_toNat_le hs
  have hs0 : (0 : ℚ) < s := by linarith
  have hb : erlang_b_val s i = brec i n := erlang_b_val_eq hs hi
  have hkey : i * (1 - brec i n) < (n : ℚ) := brec_inv_lt_self hi n hnge
  have hlt : i * (1 - brec i n) < s := lt_of_lt_of_le hkey hns
  have hexp : (i / s) * (erlang_b_val s i) + (1 - i / s)
      = 1 - (i * (1 - brec i n)) / s := by
    rw [hb]; field_simp; ring
  rw [hexp]
  have : (i * (1 - brec i n)) / s < 1 := (div_lt_one hs0).mpr hlt
  linarith

theorem erlang_c_ok {s i : ℚ} (hs : 1 ≤ s) (hi : 0 ≤ i) :
    erlang_c s i = .ok (erlang_c_val s i) := by
  unfold erlang_c
  rw [if_neg (by push_neg; constructor <;> linarith), erlang_b_ok hs hi]
  rfl

theorem erlang_c_val_mem (s i : ℚ) : 0 ≤ erlang_c_val s i ∧ erlang_c_val s i ≤ 1 :=
  min_max_mem _

/-- Under heavy traffic the Erlang C value dominates the Erlang B value. -/
theorem erlang_b_val_le_c_val {s i : ℚ} (hs : 1 ≤ s) (hi : 0 ≤ i) :
    erlang_b_val s i ≤ erlang_c_val s i := by
  have hs0 : (0 : ℚ) < s := by linarith
  have hbmem := erlang_b_val_mem s i
  set b := erlang_b_val s i with hbdef
  set d := (i / s) * b + (1 - i / s) with hddef
  have hdpos : 0 < d := erlang_c_den_pos hs hi
  have hdle : d ≤ 1 := by
    have h1b : 0 ≤ 1 - b := by linarith [hbmem.2]
    have hios : 0 ≤ i / s := div_nonneg hi (le_of_lt hs0)
    have : 0 ≤ (i / s) * (1 - b) := mul_nonneg hios h1b
    have hexp : d = 1 - (i / s) * (1 - b) := by rw [hddef]; ring
    rw [hexp]
    linarith
  have hble : b ≤ b / d := by
    rw [le_div_iff hdpos]
    nlinarith [hbmem.1, hdle]
  have hble1 : min (b / d) 1 ≥ min b 1 := by
    exact min_le_min hble (le_refl 1)
  have : b ≤ min (b / d) 1 := by
    rcases le_total (b / d) 1 with h | h
    · rw [min_eq_left h]; exact hble
    · rw [min_eq_right h]; exact hbmem.2
  unfold erlang_c_val min_max
  rw [← hbdef, ← hddef]
  exact le_trans this (le_max_left _ _)

end BasicLemmas

section ClaimC2

/-- Claim C2: the claim says `erlang_b(0, intensity)` with `intensity > 0`
returns 1.0 (the recurrence base case `B(0) = 1`).  The code instead raises
`UnboundLocalError` for every `0 ≤ servers < 1`, because `max_iterate =
int(servers) = 0` makes the loop body run zero times and the return line
reads the never-assigned local `b`.  For `int(servers) ≥ 1` the claimed
recurrence is what the code computes (sampled in the last two conjuncts). -/
theorem erlang_b_zero_servers_raises_unbound_local :
    erlang_b 0 1 = .unboundLocal ∧ erlang_b (1/2) 5 = .unboundLocal ∧
    erlang_b 1 1 = .ok (1/2) ∧ erlang_b 3 (3/2) = .ok (9/67) := by
  refine ⟨?_, ?_, ?_, ?_⟩ <;> norm_num [erlang_b, min_max, brec]

end ClaimC2

section ClaimC3

/-- Claim C3: every probability value returned by the formula evaluators
(`erlang_b`, `erlang_b_ext`, `engset_b`, `erlang_c`) and by the
probability-returning queue metrics (`queued`, `sla_metric`) lies in
`[0, 1]`, for every input on which the function returns a value. -/
theorem formula_probabilities_in_unit_interval :
    (∀ s i v, erlang_b s i = .ok v → 0 ≤ v ∧ v ≤ 1) ∧
    (∀ s i r v, erlang_b_ext s i r = .ok v → 0 ≤ v ∧ v ≤ 1) ∧
    (∀ s ev i v, engset_b s ev i = .ok v → 0 ≤ v ∧ v ≤ 1) ∧
    (∀ s i v, erlang_c s i = .ok v → 0 ≤ v ∧ v ≤ 1) ∧
    (∀ a c h v, queued a c h = .ok v → 0 ≤ v ∧ v ≤ 1) ∧
    (∀ (E : ℚ → ℚ) a stv c h v, sla_metric E a stv c h = .ok v → 0 ≤ v ∧ v ≤ 1) := by
  have hzero : (0 : ℚ) ≤ 0 ∧ (0 : ℚ) ≤ 1 := by norm_num
  refine ⟨?_, ?_, ?_, ?_, ?_, ?_⟩
  · intro s i v h
    unfold erlang_b at h
    split at h
    · injection h with hv; subst hv; exact hzero
    · split at h
      · exact PyRes.noConfusion h
      · injection h with hv; subst hv; exact min_max_mem _
  · intro s i r v h
    unfold erlang_b_ext at h
    split at h
    · injection h with hv; subst hv; exact hzero
    · split at h
      · exact PyRes.noConfusion h
      · injection h with hv; subst hv; exact min_max_mem _
  · intro s ev i v h
    unfold engset_b at h
    split at h
    · injection h with hv; subst hv; exact hzero
    · split at h
      · exact PyRes.noConfusion h
      · dsimp only at h
        split at h
        · injection h with hv; subst hv; exact hzero
        · injection h with hv; subst hv; exact min_max_mem _
  · intro s i v h
    unfold erlang_c at h
    split at h
    · injection h with hv; subst hv; exact hzero
    · cases herl : erlang_b s i with
      | ok b => rw [herl] at h; injection h with hv; subst hv; exact min_max_mem _
      | invalidInput => rw [herl] at h; exact PyRes.noConfusion h
      | calcError => rw [herl] at h; exact PyRes.noConfusion h
      | unboundLocal => rw [herl] at h; exact PyRes.noConfusion h
  · intro a c hq v h
    unfold queued at h
    split at h
    · exact PyRes.noConfusion h
    · cases herl : erlang_c a (c / (INTERVAL / hq)) with
      | ok q => rw [herl] at h; injection h with hv; subst hv; exact min_max_mem _
      | invalidInput => rw [herl] at h; exact PyRes.noConfusion h
      | calcError => rw [herl] at h; exact PyRes.noConfusion h
      | unboundLocal => rw [herl] at h; exact PyRes.noConfusion h
  · intro E a stv c hq v h
    unfold sla_metric at h
    split at h
    · exact PyRes.noConfusion h
    · split at h
      · exact PyRes.noConfusion h
      · dsimp only at h
        cases herl : erlang_c a (c / (INTERVAL / hq)) with
        | ok q => rw [herl] at h; injection h with hv; subst hv; exact min_max_mem _
        | invalidInput => rw [herl] at h; exact PyRes.noConfusion h
        | calcError => rw [herl] at h; exact PyRes.noConfusion h
        | unboundLocal => rw [herl] at h; exact PyRes.noConfusion h

/-- Witness for C3: each conjunct applied at a concrete input. -/
theorem formula_probabilities_in_unit_interval_witness :
    (erlang_b 1 1 = .ok (1/2) ∧ 0 ≤ (1/2 : ℚ) ∧ (1/2 : ℚ) ≤ 1) ∧
    (erlang_b_ext 1 1 (1/2) = .ok (4/7) ∧ 0 ≤ (4/7 : ℚ) ∧ (4/7 : ℚ) ≤ 1) ∧
    (engset_b 1 2 1 = .ok (1/2) ∧ 0 ≤ (1/2 : ℚ) ∧ (1/2 : ℚ) ≤ 1) ∧
    (erlang_c 2 1 = .ok (1/3) ∧ 0 ≤ (1/3 : ℚ) ∧ (1/3 : ℚ) ≤ 1) ∧
    (queued 2 1 3600 = .ok (1/3) ∧ 0 ≤ (1/3 : ℚ) ∧ (1/3 : ℚ) ≤ 1) ∧
    (sla_metric constOneExp 2 20 1 3600 = .ok (2/3) ∧ 0 ≤ (2/3 : ℚ) ∧ (2/3 : ℚ) ≤ 1) := by
  have hb : erlang_b 1 1 = .ok (1/2) := by norm_num [erlang_b, min_max, brec]
  have hbe : erlang_b_ext 1 1 (1/2) = .ok (4/7) := by
    norm_num [erlang_b_ext, min_max, bext_rec]
  have hen : engset_b 1 2 1 = .ok (1/2) := by norm_num [engset_b, min_max, engset_rec]
  have hc : erlang_c 2 1 = .ok (1/3) := by
    norm_num [erlang_c, erlang_b, min_max, brec]
  have hqd : queued 2 1 3600 = .ok (1/3) := by
    norm_num [queued, INTERVAL, erlang_c, erlang_b, min_max, brec]
  have hsm : sla_metric constOneExp 2 20 1 3600 = .ok (2/3) := by
    norm_num [sla_metric, INTERVAL, constOneExp, erlang_c, erlang_b, min_max, brec]
  exact ⟨⟨hb, formula_probabilities_in_unit_interval.1 1 1 (1/2) hb⟩,
    ⟨hbe, formula_probabilities_in_unit_interval.2.1 1 1 (1/2) (4/7) hbe⟩,
    ⟨hen, formula_probabilities_in_unit_interval.2.2.1 1 2 1 (1/2) hen⟩,
    ⟨hc, formula_probabilities_in_unit_interval.2.2.2.1 2 1 (1/3) hc⟩,
    ⟨hqd, formula_probabilities_in_unit_interval.2.2.2.2.1 2 1 3600 (1/3) hqd⟩,
    ⟨hsm, formula_probabilities_in_unit_interval.2.2.2.2.2 constOneExp 2 20 1 3600 (2/3) hsm⟩⟩

end ClaimC3

section ClaimC4

/-- Claim C4: for fixed `intensity ≥ 0` and integers `n2 ≥ n1 ≥ 1`,
`erlang_b(n2, intensity) ≤ erlang_b(n1, intensity)`: the blocking
probability is non-increasing in the server count. -/
theorem erlang_b_antitone_in_servers :
    ∀ (i : ℚ) (n1 n2 : ℕ) (v1 v2 : ℚ), 0 ≤ i → 1 ≤ n1 → n1 ≤ n2 →
      erlang_b (n1 : ℚ) i = .ok v1 → erlang_b (n2 : ℚ) i = .ok v2 → v2 ≤ v1 := by
  intro i n1 n2 v1 v2 hi h1 h12 e1 e2
  have hc1 : (1 : ℚ) ≤ (n1 : ℚ) := by exact_mod_cast h1
  have hc2 : (1 : ℚ) ≤ (n2 : ℚ) := by exact_mod_cast le_trans h1 h12
  rw [erlang_b_ok hc1 hi] at e1
  rw [erlang_b_ok hc2 hi] at e2
  injection e1 with hv1
  injection e2 with hv2
  subst hv1
  subst hv2
  rw [erlang_b_val_eq hc1 hi, erlang_b_val_eq hc2 hi,
    floor_toNat_natCast, floor_toNat_natCast]
  exact brec_anti hi h12

/-- Witness for C4 at `intensity = 1`, `n1 = 1`, `n2 = 2`. -/
theorem erlang_b_antitone_in_servers_witness :
    erlang_b ((1 : ℕ) : ℚ) 1 = .ok (1/2) ∧ erlang_b ((2 : ℕ) : ℚ) 1 = .ok (1/5) ∧
      (1/5 : ℚ) ≤ 1/2 := by
  have e1 : erlang_b ((1 : ℕ) : ℚ) 1 = .ok (1/2) := by
    norm_num [erlang_b, min_max, brec]
  have e2 : erlang_b ((2 : ℕ) : ℚ) 1 = .ok (1/5) := by
    norm_num [erlang_b, min_max, brec]
  exact ⟨e1, e2, erlang_b_antitone_in_servers 1 1 2 (1/2) (1/5) (by norm_num)
    (by norm_num) (by norm_num) e1 e2⟩

end ClaimC4

section ClaimC10

theorem ltLoop_ignores_max_intensity :
    ∀ (fuel : ℕ) (trunks blocking incr m1 m2 mi it : ℚ),
      ltLoop trunks blocking fuel incr m1 mi it = ltLoop trunks blocking fuel incr m2 mi it := by
  intro fuel
  induction fuel with
  | zero => intro t b incr m1 m2 mi it; rfl
  | succ f ih =>
    intro t b incr m1 m2 mi it
    rw [ltLoop, ltLoop]
    split
    · rfl
    · cases herl : erlang_b t it with
      | ok v =>
        simp only
        split
        · exact ih t b (incr / 10) it it mi (mi + incr / 10)
        · exact ih t b incr m1 m2 it (it + incr)
      | invalidInput => rfl
      | calcError => rfl
      | unboundLocal => rfl

/-- Claim C10: the result of `looping_traffic` does not depend on its
`max_intensity` argument (the variable is written inside the loop but never
read). -/
theorem looping_traffic_independent_of_max_intensity :
    ∀ (trunks blocking increment m1 m2 min_intensity : ℚ),
      looping_traffic trunks blocking increment m1 min_intensity =
        looping_traffic trunks blocking increment m2 min_intensity := by
  intro t b inc m1 m2 mi
  unfold looping_traffic
  exact ltLoop_ignores_max_intensity 100 t b inc m1 m2 mi mi

/-- Witness for C10 at a concrete call. -/
theorem looping_traffic_independent_of_max_intensity_witness :
    looping_traffic 2 (1/100) 1 50 0 = looping_traffic 2 (1/100) 1 999 0 :=
  looping_traffic_independent_of_max_intensity 2 (1/100) 1 50 999 0

end ClaimC10

section ClaimC9

theorem pyInt_nonneg {q : ℚ} (h : 0 ≤ q) : 0 ≤ pyInt q := by
  unfold pyInt
  rw [if_neg (not_lt.mpr h)]
  exact Int.floor_nonneg.mpr h

theorem erlang_c_ok_inv {s i c : ℚ} (hs : 0 ≤ s) (hi : 0 ≤ i)
    (h : erlang_c s i = .ok c) : 1 ≤ s ∧ c = erlang_c_val s i := by
  by_cases hs1 : 1 ≤ s
  · rw [erlang_c_ok hs1 hi] at h
    injection h with hv
    exact ⟨hs1, hv.symm⟩
  · exfalso
    have hfl : (⌊s⌋).toNat < 1 := by
      have : ⌊s⌋ < 1 := by
        rw [Int.floor_lt]
        push_cast
        linarith [not_le.mp hs1]
      omega
    unfold erlang_c erlang_b at h
    rw [if_neg (by push_neg; constructor <;> linarith),
      if_neg (by push_neg; constructor <;> linarith), if_pos hfl] at h
    exact PyRes.noConfusion h

/-- Claim C9: whenever `intensity/agents ≥ 1` (with `agents > 0` and the
validation passing), `queue_time` and `service_time` substitute the fixed
utilisation 0.99, the wait-time divisor is nonzero, and the returned values
are non-negative. -/
theorem utilisation_cap_guards_queue_and_service_time :
    ∀ (agents sla calls_per_hour aht : ℚ),
      0 < agents → 0 ≤ sla → 0 ≤ calls_per_hour → 0 < aht →
      1 ≤ (calls_per_hour / (INTERVAL / aht)) / agents →
      agents * (INTERVAL / aht) * (1 - 99/100) ≠ 0 ∧
      queue_time agents calls_per_hour aht =
        .ok (secs (1 / (agents * (INTERVAL / aht) * (1 - 99/100)))) ∧
      (0 : ℤ) ≤ secs (1 / (agents * (INTERVAL / aht) * (1 - 99/100))) ∧
      (∀ v, service_time agents sla calls_per_hour aht = .ok v →
        v = pyInt ((1 / (agents * (INTERVAL / aht) * (1 - 99/100)) * INTERVAL) *
          (1 - (1 - sla) / erlang_c_val agents (calls_per_hour / (INTERVAL / aht)))) ∧
          0 ≤ v) := by
  intro agents sla cph aht hag hsla hcph haht hutil
  have hIa : 0 < INTERVAL / aht := by
    have : (0 : ℚ) < INTERVAL := by norm_num [INTERVAL]
    positivity
  have hden : 0 < agents * (INTERVAL / aht) * (1 - 99/100) := by
    have h99 : (0 : ℚ) < 1 - 99/100 := by norm_num
    positivity
  have ht0 : 0 ≤ cph / (INTERVAL / aht) := by positivity
  refine ⟨ne_of_gt hden, ?_, ?_, ?_⟩
  · unfold queue_time
    rw [if_neg (by push_neg; refine ⟨by linarith, by linarith, by linarith⟩),
      if_neg (by linarith)]
    dsimp only
    rw [if_pos hutil]
  · unfold secs
    exact pyInt_nonneg (by positivity)
  · intro v hv
    unfold service_time at hv
    rw [if_neg (by push_neg; refine ⟨by linarith, by linarith, by linarith, by linarith⟩)] at hv
    dsimp only at hv
    cases herl : erlang_c agents (cph / (INTERVAL / aht)) with
    | ok c =>
      rw [herl] at hv
      dsimp only at hv
      obtain ⟨hage1, hcval⟩ := erlang_c_ok_inv (le_of_lt hag) ht0 herl
      rw [if_pos hutil] at hv
      by_cases h1 : c < 1 - sla
      · rw [if_pos h1] at hv
        exact PyRes.noConfusion hv
      · rw [if_neg h1] at hv
        by_cases h2 : c = 0
        · rw [if_pos h2] at hv
          exact PyRes.noConfusion hv
        · rw [if_neg h2] at hv
          have hcge : 1 - sla ≤ c := not_lt.mp h1
          have hc0 : 0 ≤ c := by
            rw [hcval]; exact (erlang_c_val_mem _ _).1
          have hcpos : 0 < c := lt_of_le_of_ne hc0 (Ne.symm h2)
          have hfac : 0 ≤ 1 - (1 - sla) / c := by
            rcases le_or_lt (1 - sla) 0 with hh | hh
            · have : (1 - sla) / c ≤ 0 := div_nonpos_iff.mpr (Or.inr ⟨hh, hc0⟩)
              linarith
            · have : (1 - sla) / c ≤ 1 := (div_le_one hcpos).mpr hcge
              linarith
          have hq : 0 ≤ 1 / (agents * (INTERVAL / aht) * (1 - 99/100)) * INTERVAL := by
            have : (0 : ℚ) < INTERVAL := by norm_num [INTERVAL]
            positivity
          have hst : 0 ≤ 1 / (agents * (INTERVAL / aht) * (1 - 99/100)) * INTERVAL *
              (1 - (1 - sla) / c) := mul_nonneg hq hfac
          rw [if_neg (not_lt.mpr hst)] at hv
          injection hv with hveq
          subst hveq
          rw [add_zero]
          constructor
          · rw [hcval]
          · exact pyInt_nonneg hst
    | invalidInput => rw [herl] at hv; exact PyRes.noConfusion hv
    | calcError => rw [herl] at hv; exact PyRes.noConfusion hv
    | unboundLocal => rw [herl] at hv; exact PyRes.noConfusion hv

/-- Witness for C9 at `agents = 2`, `sla = 1/2`, `calls_per_hour = 3`,
`aht = 3600` (utilisation `3/2 ≥ 1`). -/
theorem utilisation_cap_guards_queue_and_service_time_witness :
    (1 ≤ ((3 : ℚ) / (INTERVAL / 3600)) / 2) ∧
    queue_time 2 3 3600 = .ok 30000 ∧
    service_time 2 (1/2) 3 3600 = .ok 90000 ∧ (0 : ℤ) ≤ 90000 := by
  have hu : (1 : ℚ) ≤ ((3 : ℚ) / (INTERVAL / 3600)) / 2 := by norm_num [INTERVAL]
  have hsv : service_time 2 (1/2) 3 3600 = .ok 90000 := by
    norm_num [service_time, INTERVAL, erlang_c, erlang_b, min_max, brec, pyInt]
  have h := utilisation_cap_guards_queue_and_service_time 2 (1/2) 3 3600
    (by norm_num) (by norm_num) (by norm_num) (by norm_num) hu
  refine ⟨hu, ?_, hsv, h.2.2.2 90000 hsv |>.2⟩
  rw [h.2.1]
  norm_num [secs, INTERVAL, pyInt]

end ClaimC9

section ClaimC6

theorem incrLoop_spec (x : ℚ) :
    ∀ (fuel k : ℕ), x < (10 : ℚ) ^ (k + fuel) →
      x < (10 : ℚ) ^ (incrLoop x fuel k) ∧
        (incrLoop x fuel k = k ∨ (10 : ℚ) ^ (incrLoop x fuel k) / 10 ≤ x) := by
  intro fuel
  induction fuel with
  | zero =>
    intro k hk
    rw [incrLoop]
    exact ⟨by simpa using hk, Or.inl rfl⟩
  | succ f ih =>
    intro k hk
    rw [incrLoop]
    by_cases hc : (10 : ℚ) ^ k ≤ x
    · rw [if_pos hc]
      have hk2 : x < (10 : ℚ) ^ ((k + 1) + f) := by
        have harr : (k + 1) + f = k + (f + 1) := by omega
        rw [harr]
        exact hk
      obtain ⟨h1, h2⟩ := ih (k + 1) hk2
      refine ⟨h1, Or.inr ?_⟩
      rcases h2 with he | hle
      · rw [he, pow_succ, mul_div_cancel_right₀ _ (by norm_num : (10 : ℚ) ≠ 0)]
        exact hc
      · exact hle
    · rw [if_neg hc]
      exact ⟨not_le.mp hc, Or.inl rfl⟩

theorem incr_fuel_adequate (x : ℚ) : x < (10 : ℚ) ^ (x.num.natAbs + 1) := by
  rcases lt_or_le x 1 with hx | hx
  · calc x < 1 := hx
      _ ≤ (10 : ℚ) ^ (x.num.natAbs + 1) := one_le_pow₀ (by norm_num)
  · have hnum : 0 ≤ x.num := by
      have : (0 : ℚ) ≤ x := by linarith
      exact Rat.num_nonneg.mpr this
    have hxle : x ≤ (x.num : ℚ) := by
      conv_lhs => rw [← Rat.num_div_den x]
      have hden : (1 : ℚ) ≤ (x.den : ℚ) := by
        have := x.pos
        exact_mod_cast this
      exact div_le_self (by exact_mod_cast hnum) hden
    have hcast : ((x.num.natAbs : ℕ) : ℚ) = (x.num : ℚ) := by
      rw [Int.cast_natAbs]
      exact_mod_cast abs_of_nonneg hnum
    have hpow : ((x.num.natAbs : ℕ) : ℚ) < (10 : ℚ) ^ (x.num.natAbs + 1) := by
      calc ((x.num.natAbs : ℕ) : ℚ) < (2 : ℚ) ^ x.num.natAbs := by
            exact_mod_cast Nat.lt_two_pow x.num.natAbs
        _ ≤ (10 : ℚ) ^ x.num.natAbs :=
            pow_le_pow_left (by norm_num) (by norm_num) _
        _ ≤ (10 : ℚ) ^ (x.num.natAbs + 1) :=
            pow_le_pow_right (by norm_num) (by omega)
    calc x ≤ (x.num : ℚ) := hxle
      _ = ((x.num.natAbs : ℕ) : ℚ) := hcast.symm
      _ < (10 : ℚ) ^ (x.num.natAbs + 1) := hpow

/-- Claim C6 (amended): `traffic` returns 0 whenever `servers < 1` or
`blocking < 0`; otherwise, once the doubling loop has established the upper
bound `m`, the initial step size passed to `looping_traffic` is the
smallest power of ten that is at least 1 and strictly greater than
`m / 100` (the claim said "largest power of ten ≤ upperBound/100", which is
what the counterexample below refutes). -/
theorem traffic_returns_zero_and_initial_step :
    (∀ (s b : ℚ) (fuel : ℕ), (s < 1 ∨ b < 0) → traffic s b fuel = some (.ok 0)) ∧
    (∀ (s b m : ℚ) (fuel : ℕ), ¬(s < 1 ∨ b < 0) →
      dblLoop s b fuel ((pyInt s : ℤ) : ℚ) = some m →
      traffic s b fuel =
        some (looping_traffic ((pyInt s : ℤ) : ℚ) b (traffic_incr m) m 0) ∧
      (∃ k : ℕ, traffic_incr m = (10 : ℚ) ^ k) ∧
      1 ≤ traffic_incr m ∧
      m / 100 < traffic_incr m ∧
      (traffic_incr m = 1 ∨ traffic_incr m / 10 ≤ m / 100)) := by
  constructor
  · intro s b fuel h
    unfold traffic
    rw [if_pos h]
  · intro s b m fuel h hdbl
    have hspec := incrLoop_spec (m / 100) ((m / 100).num.natAbs + 1) 0
      (by simpa using incr_fuel_adequate (m / 100))
    refine ⟨?_, ⟨_, rfl⟩, one_le_pow₀ (by norm_num), ?_, ?_⟩
    · unfold traffic
      rw [if_neg h, hdbl]
      rfl
    · unfold traffic_incr
      exact hspec.1
    · rcases hspec.2 with he | hle
      · left
        unfold traffic_incr
        rw [he]
        norm_num
      · right
        unfold traffic_incr
        exact hle

/-- Counterexample for C6 as stated: at `servers = 2`, `blocking = 0.99`
the doubling loop stops at upper bound 256, and the step size handed to
`looping_traffic` is 10 — which is NOT `≤ 256/100 = 2.56`, hence not the
largest power of ten below that bound (which would be 1). -/
theorem traffic_incr_counterexample :
    dblLoop 2 (99/100) 9 ((pyInt 2 : ℤ) : ℚ) = some 256 ∧
    traffic_incr 256 = 10 ∧ ¬((10 : ℚ) ≤ 256 / 100) ∧ (1 : ℚ) ≤ 256 / 100 := by
  have hadq := incr_fuel_adequate ((256 : ℚ) / 100)
  have hspec := incrLoop_spec ((256 : ℚ) / 100) (((256 : ℚ) / 100).num.natAbs + 1) 0
    (by simpa using hadq)
  set r := incrLoop ((256 : ℚ) / 100) (((256 : ℚ) / 100).num.natAbs + 1) 0 with hr
  have h1 : (256 : ℚ) / 100 < 10 ^ r := hspec.1
  have hrne : r ≠ 0 := by
    intro h0
    rw [h0] at h1
    norm_num at h1
  have h2 : (10 : ℚ) ^ r / 10 ≤ 256 / 100 := hspec.2.resolve_left hrne
  have h2b : (10 : ℚ) ^ r ≤ 256 / 10 := by
    have := (div_le_iff (by norm_num : (0 : ℚ) < 10)).mp h2
    linarith
  have hrle : r ≤ 1 := by
    by_contra hgt
    push_neg at hgt
    have hge : (10 : ℚ) ^ 2 ≤ 10 ^ r := pow_le_pow_right (by norm_num) hgt
    norm_num at hge
    linarith
  have hr1 : r = 1 := by omega
  refine ⟨?_, ?_, by norm_num, by norm_num⟩
  · norm_num [dblLoop, erlang_b_val, min_max, brec, pyInt]
  · unfold traffic_incr
    rw [← hr, hr1]
    norm_num

/-- Witness for C6 at `servers = 2`, `blocking = 0.99`, fuel 9. -/
theorem traffic_returns_zero_and_initial_step_witness :
    (¬((2 : ℚ) < 1 ∨ (99/100 : ℚ) < 0)) ∧
    dblLoop 2 (99/100) 9 ((pyInt 2 : ℤ) : ℚ) = some 256 ∧
    traffic 2 (99/100) 9 =
      some (looping_traffic ((pyInt 2 : ℤ) : ℚ) (99/100) (traffic_incr 256) 256 0) ∧
    1 ≤ traffic_incr 256 ∧ (256 : ℚ) / 100 < traffic_incr 256 ∧
    (traffic_incr 256 = 1 ∨ traffic_incr 256 / 10 ≤ 256 / 100) ∧
    traffic 0 (1/2) 3 = some (.ok 0) := by
  have hv : ¬((2 : ℚ) < 1 ∨ (99/100 : ℚ) < 0) := by norm_num
  have hdbl : dblLoop 2 (99/100) 9 ((pyInt 2 : ℤ) : ℚ) = some 256 := by
    norm_num [dblLoop, erlang_b_val, min_max, brec, pyInt]
  have h := traffic_returns_zero_and_initial_step.2 2 (99/100) 256 9 hv hdbl
  exact ⟨hv, hdbl, h.1, h.2.2.1, h.2.2.2.1, h.2.2.2.2,
    traffic_returns_zero_and_initial_step.1 0 (1/2) 3 (by norm_num)⟩

section ClaimC8

theorem pyInt_ge_one {q : ℚ} (h : 1 ≤ q) : 1 ≤ pyInt q := by
  unfold pyInt
  rw [if_neg (not_lt.mpr (by linarith))]
  rw [Int.le_floor]
  exact_mod_cast h

theorem nbLoop_exhaust :
    ∀ (fuel count : ℕ) (cph sa aht : ℚ),
      (∀ (c : ℕ) (v : ℤ), count ≤ c → c < count + fuel →
        asa (c : ℚ) cph aht = .ok v → sa < (v : ℚ)) →
      nbLoop cph sa aht fuel count = .calcError := by
  intro fuel
  induction fuel with
  | zero => intro count cph sa aht h; rfl
  | succ f ih =>
    intro count cph sa aht h
    rw [nbLoop]
    cases ha : asa (count : ℚ) cph aht with
    | ok v =>
      have hlt := h count v (le_refl _) (by omega) ha
      dsimp only
      rw [if_neg (not_le.mpr hlt)]
      exact ih (count + 1) cph sa aht (fun c v hc1 hc2 hok => h c v (by omega) (by omega) hok)
    | invalidInput => rfl
    | calcError => rfl
    | unboundLocal => rfl

theorem ntLoop_exhaust :
    ∀ (fuel count : ℕ) (i : ℚ),
      (∀ (c : ℕ) (v : ℚ), count ≤ c → c < count + fuel →
        erlang_b (c : ℚ) i = .ok v → 1/1000 ≤ v) →
      ntLoop i fuel count = .calcError := by
  intro fuel
  induction fuel with
  | zero => intro count i h; rfl
  | succ f ih =>
    intro count i h
    rw [ntLoop]
    cases hb : erlang_b (count : ℚ) i with
    | ok v =>
      have hge := h count v (le_refl _) (by omega) hb
      dsimp only
      rw [if_neg (not_lt.mpr hge)]
      exact ih (count + 1) i (fun c v hc1 hc2 hok => h c v (by omega) (by omega) hok)
    | invalidInput => rfl
    | calcError => rfl
    | unboundLocal => rfl

/-- Claim C8: `nb_agents` and `number_trunks` raise a calculation failure
when the 65535 bound is exhausted without meeting the target;
`service_time` raises a calculation failure when the queueing probability
is already below `1 - sla`; and the raw evaluators `erlang_b`, `engset_b`
and `erlang_c` return 0.0 for negative servers or intensity instead of
raising. -/
theorem failure_policy_asymmetry :
    (∀ (cph sa aht : ℚ), 0 ≤ cph → 0 ≤ sa → 0 < aht →
      (∀ (count : ℕ) (v : ℤ), 1 ≤ count → count ≤ 65535 →
        asa (count : ℚ) cph aht = .ok v → sa < (v : ℚ)) →
      nb_agents cph sa aht = .calcError) ∧
    (∀ (s i : ℚ), 0 ≤ s → 0 ≤ i →
      (∀ (count : ℕ) (v : ℚ), (int_ceiling s).toNat ≤ count → count ≤ 65535 →
        erlang_b (count : ℚ) i = .ok v → 1/1000 ≤ v) →
      number_trunks s i = .calcError) ∧
    (∀ (agents sla cph aht c : ℚ), 0 ≤ agents → 0 ≤ sla → 0 ≤ cph → 0 < aht →
      erlang_c agents (cph / (INTERVAL / aht)) = .ok c → c < 1 - sla →
      service_time agents sla cph aht = .calcError) ∧
    (∀ (s i ev : ℚ), s < 0 ∨ i < 0 →
      erlang_b s i = .ok 0 ∧ erlang_c s i = .ok 0 ∧ engset_b s ev i = .ok 0) := by
  refine ⟨?_, ?_, ?_, ?_⟩
  · intro cph sa aht hcph hsa haht h
    unfold nb_agents
    rw [if_neg (by push_neg; refine ⟨by linarith, by linarith, by linarith⟩)]
    exact nbLoop_exhaust 65535 1 cph sa aht (fun c v hc1 hc2 hok => h c v hc1 (by omega) hok)
  · intro s i hs hi h
    unfold number_trunks
    rw [if_neg (by push_neg; refine ⟨by linarith, by linarith⟩)]
    exact ntLoop_exhaust _ _ i (fun c v hc1 hc2 hok => by
      refine h c v hc1 ?_ hok
      rcases le_or_lt (int_ceiling s) 65536 with hle | hgt
      · have hics : 0 ≤ int_ceiling s := by
          unfold int_ceiling
          rw [if_neg (not_lt.mpr hs)]
          exact pyInt_nonneg (by linarith)
        omega
      · exfalso
        have : (65536 - int_ceiling s).toNat = 0 := by omega
        omega)
  · intro agents sla cph aht c hag hsla hcph haht herl hclt
    unfold service_time
    rw [if_neg (by push_neg; refine ⟨by linarith, by linarith, by linarith, by linarith⟩)]
    dsimp only
    rw [herl]
    dsimp only
    rw [if_pos hclt]
  · intro s i ev h
    refine ⟨?_, ?_, ?_⟩
    · unfold erlang_b; rw [if_pos h]
    · unfold erlang_c; rw [if_pos h]
    · unfold engset_b; rw [if_pos h]

theorem erlang_b_heavy_bound :
    ∀ (count : ℕ) (v : ℚ), 1 ≤ count → count ≤ 65535 →
      erlang_b (count : ℚ) 1000000000 = .ok v → 1/1000 ≤ v := by
  intro count v h1 h65 hok
  have hc1 : (1 : ℚ) ≤ (count : ℚ) := by exact_mod_cast h1
  rw [erlang_b_ok hc1 (by norm_num)] at hok
  injection hok with hv
  rw [← hv, erlang_b_val_eq hc1 (by norm_num), floor_toNat_natCast]
  have hlb := brec_lb (show (0 : ℚ) < 1000000000 by norm_num) count
  have hcast : ((count : ℚ) + 1) ≤ 65536 := by
    have : count + 1 ≤ 65536 := by omega
    exact_mod_cast this
  have hA : ((count : ℚ) + 1) / 1000000000 ≤ 65536 / 1000000000 :=
    (div_le_div_right (by norm_num)).mpr hcast
  have hB : (1 : ℚ) / 1000 ≤ 1 - 65536 / 1000000000 := by norm_num
  linarith

theorem asa_heavy_pos :
    ∀ (count : ℕ) (v : ℤ), 1 ≤ count → count ≤ 65535 →
      asa (count : ℚ) 1000000000 3600 = .ok v → (0 : ℚ) < (v : ℚ) := by
  intro count v h1 h65 hok
  have hc1 : (1 : ℚ) ≤ (count : ℚ) := by exact_mod_cast h1
  have hcpos : (0 : ℚ) < (count : ℚ) := by linarith
  have hc65 : (count : ℚ) ≤ 65535 := by exact_mod_cast h65
  unfold asa at hok
  rw [if_neg (by push_neg; refine ⟨by linarith, by norm_num, by norm_num⟩)] at hok
  dsimp only at hok
  rw [show INTERVAL / (3600 : ℚ) = 1 by norm_num [INTERVAL]] at hok
  simp only [div_one] at hok
  have hutil : (1 : ℚ) ≤ 1000000000 / (count : ℚ) := by
    rw [le_div_iff hcpos]
    linarith
  rw [if_pos hutil, erlang_c_ok hc1 (by norm_num)] at hok
  dsimp only at hok
  injection hok with hv
  set c := erlang_c_val (count : ℚ) 1000000000 with hcdef
  have hbv : erlang_b_val (count : ℚ) 1000000000 = brec 1000000000 count := by
    rw [erlang_b_val_eq hc1 (by norm_num), floor_toNat_natCast]
  have hclb : (9 : ℚ) / 10 ≤ c := by
    have hge := erlang_b_val_le_c_val hc1 (show (0 : ℚ) ≤ 1000000000 by norm_num)
    have hlb := brec_lb (show (0 : ℚ) < 1000000000 by norm_num) count
    have hcast : ((count : ℚ) + 1) ≤ 65536 := by
      have : count + 1 ≤ 65536 := by omega
      exact_mod_cast this
    have hA : ((count : ℚ) + 1) / 1000000000 ≤ 65536 / 1000000000 :=
      (div_le_div_right (by norm_num)).mpr hcast
    have hB : (9 : ℚ) / 10 ≤ 1 - 65536 / 1000000000 := by norm_num
    rw [hbv] at hge
    linarith
  have heq : c / ((count : ℚ) * 1 * (1 - 99/100)) * 600 = 60000 * c / (count : ℚ) := by
    field_simp
    ring
  have hfrac : (54000 : ℚ) / 65535 ≤ 60000 * c / (count : ℚ) :=
    div_le_div (by positivity) (by linarith) hcpos hc65
  have hhalf : (1 : ℚ) / 2 ≤ 54000 / 65535 := by norm_num
  have harg : 1 ≤ c / ((count : ℚ) * 1 * (1 - 99/100)) * 600 + 1/2 := by
    rw [heq]
    linarith
  have hv1 : 1 ≤ v := by
    rw [← hv]
    exact pyInt_ge_one harg
  exact_mod_cast lt_of_lt_of_le (by norm_num : (0 : ℤ) < 1) hv1

/-- Witness for C8: `nb_agents` exhausts its 65535 bound under extreme
load (10⁹ calls per hour, zero target ASA); `number_trunks` exhausts its
bound at intensity 10⁹; `service_time` fails when `c < 1 - sla`; the raw
evaluators return 0 on a negative input. -/
theorem failure_policy_asymmetry_witness :
    nb_agents 1000000000 0 3600 = .calcError ∧
    number_trunks 1 1000000000 = .calcError ∧
    erlang_c 2 ((1 : ℚ) / (INTERVAL / 3600)) = .ok (1/3) ∧
    service_time 2 (1/2) 1 3600 = .calcError ∧
    erlang_b (-1) 5 = .ok 0 ∧ erlang_c (-1) 5 = .ok 0 ∧ engset_b (-1) 3 5 = .ok 0 := by
  have herl : erlang_c 2 ((1 : ℚ) / (INTERVAL / 3600)) = .ok (1/3) := by
    norm_num [INTERVAL, erlang_c, erlang_b, min_max, brec]
  have hneg := failure_policy_asymmetry.2.2.2 (-1) 5 3 (by norm_num)
  refine ⟨?_, ?_, herl, ?_, hneg.1, hneg.2.1, hneg.2.2⟩
  · exact failure_policy_asymmetry.1 1000000000 0 3600 (by norm_num) (by norm_num)
      (by norm_num) (fun count v h1 h65 hok => asa_heavy_pos count v h1 h65 hok)
  · apply failure_policy_asymmetry.2.1 1 1000000000 (by norm_num) (by norm_num)
    intro count v hcl h65 hok
    have hic : (int_ceiling 1).toNat = 1 := by
      norm_num [int_ceiling, pyInt]
    rw [hic] at hcl
    exact erlang_b_heavy_bound count v hcl h65 hok
  · exact failure_policy_asymmetry.2.2.1 2 (1/2) 1 3600 (1/3) (by norm_num) (by norm_num)
      (by norm_num) (by norm_num) herl (by norm_num)

end ClaimC8

section ClaimC1

theorem PyRes.getD_ok {α : Type} (v : α) (d : α) : (PyRes.ok v).getD d = v := rfl

theorem PyRes.isOk_ok {α : Type} (v : α) : (PyRes.ok v).isOk = true := rfl

theorem rung_bounds {c e lo hi sla : ℚ} (hl : lo ≤ c * e) (hu : c * e ≤ hi)
    (hhi : hi ≤ 1) (hlo1 : 1 - sla < lo) (hacc : config_MAX_ACCURACY ≤ lo) :
    0 ≤ 1 - c * e ∧ 1 - c * e < sla ∧ 1 - c * e ≤ 1 - config_MAX_ACCURACY :=
  ⟨by linarith, by linarith, by linarith⟩

theorem rung_break_bounds {c e hi sla : ℚ} (hsla : 0 ≤ sla) (h0 : 0 ≤ c * e)
    (hu : c * e ≤ hi) (hhi : hi ≤ 1 - sla) : 0 ≤ 1 - c * e ∧ sla ≤ 1 - c * e :=
  ⟨by linarith, by linarith⟩

theorem ladderA_step_continue (E : ℚ → ℚ) (t sla st aht : ℚ) (fuel n : ℕ)
    (hg : t / (n : ℚ) < 1)
    (h0 : 0 ≤ 1 - erlang_c_val (n : ℚ) t * E ((t - (n : ℚ)) * st / aht))
    (hlt : 1 - erlang_c_val (n : ℚ) t * E ((t - (n : ℚ)) * st / aht) < sla)
    (hacc : 1 - erlang_c_val (n : ℚ) t * E ((t - (n : ℚ)) * st / aht) ≤ 1 - config_MAX_ACCURACY) :
    ladderA E t sla st aht (fuel + 1) n = ladderA E t sla st aht fuel (n + 1) := by
  rw [ladderA, if_pos hg]
  dsimp only
  rw [if_neg (not_lt.mpr h0)]
  rw [if_neg (by push_neg; exact ⟨hlt, hacc⟩)]

theorem ladderA_step_break (E : ℚ → ℚ) (t sla st aht : ℚ) (fuel n : ℕ)
    (hg : t / (n : ℚ) < 1)
    (h0 : 0 ≤ 1 - erlang_c_val (n : ℚ) t * E ((t - (n : ℚ)) * st / aht))
    (hge : sla ≤ 1 - erlang_c_val (n : ℚ) t * E ((t - (n : ℚ)) * st / aht)) :
    ladderA E t sla st aht (fuel + 1) n = n := by
  rw [ladderA, if_pos hg]
  dsimp only
  rw [if_neg (not_lt.mpr h0), if_pos (Or.inl hge)]

/-- Claim C1: at the representative input `sla = 0.8`, `serviceTime = 20`,
`callVolume = 300`, `aht = 180`, and for any `math.exp` evaluator `E`
matching the true exponential at the four points the run touches,
`agents_required` returns 19, with `sla_metric(19, …) ≥ 0.8` and
`sla_metric(18, …) < 0.8` — the monotone boundary characterisation of
minimality stated by the claim. -/
theorem agents_required_minimal_boundary (E : ℚ → ℚ)
    (hE1l : 8948/10000 ≤ E ((-1 : ℚ)/9)) (hE1u : E ((-1 : ℚ)/9) ≤ 8949/10000)
    (hE2l : 8007/10000 ≤ E ((-2 : ℚ)/9)) (hE2u : E ((-2 : ℚ)/9) ≤ 8008/10000)
    (hE3l : 7165/10000 ≤ E ((-1 : ℚ)/3)) (hE3u : E ((-1 : ℚ)/3) ≤ 7166/10000)
    (hE4l : 6411/10000 ≤ E ((-4 : ℚ)/9)) (hE4u : E ((-4 : ℚ)/9) ≤ 6412/10000) :
    agents_required E (4/5) 20 300 180 = .ok 19 ∧
    (sla_metric E 19 20 300 180).isOk = true ∧
    4/5 ≤ (sla_metric E 19 20 300 180).getD 0 ∧
    (sla_metric E 18 20 300 180).isOk = true ∧
    (sla_metric E 18 20 300 180).getD 0 < 4/5 := by
  -- the exponential arguments the ladder and the metric touch
  have harg16 : ((15 : ℚ) - ((16 : ℕ) : ℚ)) * 20 / 180 = (-1 : ℚ)/9 := by push_cast; norm_num
  have harg17 : ((15 : ℚ) - ((17 : ℕ) : ℚ)) * 20 / 180 = (-2 : ℚ)/9 := by push_cast; norm_num
  have harg18 : ((15 : ℚ) - ((18 : ℕ) : ℚ)) * 20 / 180 = (-1 : ℚ)/3 := by push_cast; norm_num
  have harg19 : ((15 : ℚ) - ((19 : ℕ) : ℚ)) * 20 / 180 = (-4 : ℚ)/9 := by push_cast; norm_num
  -- exact rational bounds on the Erlang C values along the run
  have hc16l : (73 : ℚ)/100 ≤ erlang_c_val ((16 : ℕ) : ℚ) 15 := by
    norm_num [erlang_c_val, erlang_b_val, min_max, brec]
  have hc16u : erlang_c_val ((16 : ℕ) : ℚ) 15 ≤ 7301/10000 := by
    norm_num [erlang_c_val, erlang_b_val, min_max, brec]
  have hc17l : (52 : ℚ)/100 ≤ erlang_c_val ((17 : ℕ) : ℚ) 15 := by
    norm_num [erlang_c_val, erlang_b_val, min_max, brec]
  have hc17u : erlang_c_val ((17 : ℕ) : ℚ) 15 ≤ 5203/10000 := by
    norm_num [erlang_c_val, erlang_b_val, min_max, brec]
  have hc18l : (36 : ℚ)/100 ≤ erlang_c_val ((18 : ℕ) : ℚ) 15 := by
    norm_num [erlang_c_val, erlang_b_val, min_max, brec]
  have hc18u : erlang_c_val ((18 : ℕ) : ℚ) 15 ≤ 3614/10000 := by
    norm_num [erlang_c_val, erlang_b_val, min_max, brec]
  have hc19l : (24 : ℚ)/100 ≤ erlang_c_val ((19 : ℕ) : ℚ) 15 := by
    norm_num [erlang_c_val, erlang_b_val, min_max, brec]
  have hc19u : erlang_c_val ((19 : ℕ) : ℚ) 15 ≤ 2443/10000 := by
    norm_num [erlang_c_val, erlang_b_val, min_max, brec]
  -- product bounds c_n * E(p_n) at each rung
  have hE1pos : (0 : ℚ) ≤ E ((-1 : ℚ)/9) := le_trans (by norm_num) hE1l
  have hE2pos : (0 : ℚ) ≤ E ((-2 : ℚ)/9) := le_trans (by norm_num) hE2l
  have hE3pos : (0 : ℚ) ≤ E ((-1 : ℚ)/3) := le_trans (by norm_num) hE3l
  have hE4pos : (0 : ℚ) ≤ E ((-4 : ℚ)/9) := le_trans (by norm_num) hE4l
  have hc16pos : (0 : ℚ) ≤ erlang_c_val ((16 : ℕ) : ℚ) 15 := (erlang_c_val_mem _ _).1
  have hc17pos : (0 : ℚ) ≤ erlang_c_val ((17 : ℕ) : ℚ) 15 := (erlang_c_val_mem _ _).1
  have hc18pos : (0 : ℚ) ≤ erlang_c_val ((18 : ℕ) : ℚ) 15 := (erlang_c_val_mem _ _).1
  have hc19pos : (0 : ℚ) ≤ erlang_c_val ((19 : ℕ) : ℚ) 15 := (erlang_c_val_mem _ _).1
  have hp16l : (73 : ℚ)/100 * (8948/10000) ≤
      erlang_c_val ((16 : ℕ) : ℚ) 15 * E ((-1 : ℚ)/9) :=
    mul_le_mul hc16l hE1l (by norm_num) hc16pos
  have hp16u : erlang_c_val ((16 : ℕ) : ℚ) 15 * E ((-1 : ℚ)/9) ≤
      (7301 : ℚ)/10000 * (8949/10000) :=
    mul_le_mul hc16u hE1u hE1pos (by norm_num)
  have hp17l : (52 : ℚ)/100 * (8007/10000) ≤
      erlang_c_val ((17 : ℕ) : ℚ) 15 * E ((-2 : ℚ)/9) :=
    mul_le_mul hc17l hE2l (by norm_num) hc17pos
  have hp17u : erlang_c_val ((17 : ℕ) : ℚ) 15 * E ((-2 : ℚ)/9) ≤
      (5203 : ℚ)/10000 * (8008/10000) :=
    mul_le_mul hc17u hE2u hE2pos (by norm_num)
  have hp18l : (36 : ℚ)/100 * (7165/10000) ≤
      erlang_c_val ((18 : ℕ) : ℚ) 15 * E ((-1 : ℚ)/3) :=
    mul_le_mul hc18l hE3l (by norm_num) hc18pos
  have hp18u : erlang_c_val ((18 : ℕ) : ℚ) 15 * E ((-1 : ℚ)/3) ≤
      (3614 : ℚ)/10000 * (7166/10000) :=
    mul_le_mul hc18u hE3u hE3pos (by norm_num)
  have hp19l : (24 : ℚ)/100 * (6411/10000) ≤
      erlang_c_val ((19 : ℕ) : ℚ) 15 * E ((-4 : ℚ)/9) :=
    mul_le_mul hc19l hE4l (by norm_num) hc19pos
  have hp19u : erlang_c_val ((19 : ℕ) : ℚ) 15 * E ((-4 : ℚ)/9) ≤
      (2443 : ℚ)/10000 * (6412/10000) :=
    mul_le_mul hc19u hE4u hE4pos (by norm_num)
  -- the four rungs of the ladder
  have hg16 : (15 : ℚ) / ((16 : ℕ) : ℚ) < 1 := by push_cast; norm_num
  have hg17 : (15 : ℚ) / ((17 : ℕ) : ℚ) < 1 := by push_cast; norm_num
  have hg18 : (15 : ℚ) / ((18 : ℕ) : ℚ) < 1 := by push_cast; norm_num
  have hg19 : (15 : ℚ) / ((19 : ℕ) : ℚ) < 1 := by push_cast; norm_num
  have step16 : ladderA E 15 (4/5) 20 180 1600 16 = ladderA E 15 (4/5) 20 180 1599 17 := by
    obtain ⟨hA, hB, hC⟩ := rung_bounds hp16l hp16u
      (show (7301 : ℚ)/10000 * (8949/10000) ≤ 1 by norm_num)
      (show 1 - 4/5 < (73 : ℚ)/100 * (8948/10000) by norm_num)
      (show config_MAX_ACCURACY ≤ (73 : ℚ)/100 * (8948/10000) by norm_num [config_MAX_ACCURACY])
    have h := ladderA_step_continue E 15 (4/5) 20 180 1599 16 hg16
      (by rw [harg16]; exact hA) (by rw [harg16]; exact hB) (by rw [harg16]; exact hC)
    norm_num at h
    exact h
  have step17 : ladderA E 15 (4/5) 20 180 1599 17 = ladderA E 15 (4/5) 20 180 1598 18 := by
    obtain ⟨hA, hB, hC⟩ := rung_bounds hp17l hp17u
      (show (5203 : ℚ)/10000 * (8008/10000) ≤ 1 by norm_num)
      (show 1 - 4/5 < (52 : ℚ)/100 * (8007/10000) by norm_num)
      (show config_MAX_ACCURACY ≤ (52 : ℚ)/100 * (8007/10000) by norm_num [config_MAX_ACCURACY])
    have h := ladderA_step_continue E 15 (4/5) 20 180 1598 17 hg17
      (by rw [harg17]; exact hA) (by rw [harg17]; exact hB) (by rw [harg17]; exact hC)
    norm_num at h
    exact h
  have step18 : ladderA E 15 (4/5) 20 180 1598 18 = ladderA E 15 (4/5) 20 180 1597 19 := by
    obtain ⟨hA, hB, hC⟩ := rung_bounds hp18l hp18u
      (show (3614 : ℚ)/10000 * (7166/10000) ≤ 1 by norm_num)
      (show 1 - 4/5 < (36 : ℚ)/100 * (7165/10000) by norm_num)
      (show config_MAX_ACCURACY ≤ (36 : ℚ)/100 * (7165/10000) by norm_num [config_MAX_ACCURACY])
    have h := ladderA_step_continue E 15 (4/5) 20 180 1597 18 hg18
      (by rw [harg18]; exact hA) (by rw [harg18]; exact hB) (by rw [harg18]; exact hC)
    norm_num at h
    exact h
  have step19 : ladderA E 15 (4/5) 20 180 1597 19 = 19 := by
    obtain ⟨hA, hB⟩ := rung_break_bounds (by norm_num)
      (mul_nonneg hc19pos hE4pos) hp19u
      (show (2443 : ℚ)/10000 * (6412/10000) ≤ 1 - 4/5 by norm_num)
    have h := ladderA_step_break E 15 (4/5) 20 180 1596 19 hg19
      (by rw [harg19]; exact hA) (by rw [harg19]; exact hB)
    norm_num at h
    exact h
  have hlad : ladderA E 15 (4/5) 20 180 1600 16 = 19 := by
    rw [step16, step17, step18, step19]
  have hagents : agents_required E (4/5) 20 300 180 = .ok 19 := by
    unfold agents_required
    rw [if_neg (by push_neg; refine ⟨by norm_num, by norm_num, by norm_num⟩)]
    dsimp only
    rw [show min (4/5 : ℚ) 1 = 4/5 by norm_num]
    rw [show (300 : ℚ) / (INTERVAL / 180) = 15 by norm_num [INTERVAL]]
    rw [show pyInt ((300 : ℚ) * 180 / INTERVAL + 1/2) = 15 by norm_num [INTERVAL, pyInt]]
    rw [show init_agents 15 (15 : ℤ) = 16 by
      unfold init_agents bump
      rw [if_neg (by norm_num : ¬(15 : ℤ) < 1), show (15 : ℤ).toNat = 15 by simp,
        show ((⌊(15 : ℚ)⌋).toNat) = 15 from rfl]
      norm_num [bumpLoop]]
    rw [show (16 * 100 : ℕ) = 1600 by norm_num]
    rw [hlad]
  -- the sla_metric values at 19 and 18 agents
  have hcast19 : erlang_c_val (19 : ℚ) 15 = erlang_c_val ((19 : ℕ) : ℚ) 15 := by norm_num
  have hcast18 : erlang_c_val (18 : ℚ) 15 = erlang_c_val ((18 : ℕ) : ℚ) 15 := by norm_num
  have h19 : sla_metric E 19 20 300 180 =
      .ok (1 - erlang_c_val ((19 : ℕ) : ℚ) 15 * E ((-4 : ℚ)/9)) := by
    unfold sla_metric
    rw [if_neg (by push_neg; refine ⟨by norm_num, by norm_num, by norm_num, by norm_num⟩),
      if_neg (by norm_num)]
    dsimp only
    rw [show (300 : ℚ) / (INTERVAL / 180) = 15 by norm_num [INTERVAL]]
    rw [erlang_c_ok (by norm_num) (by norm_num)]
    dsimp only
    rw [show ((15 : ℚ) - 19) * 20 / 180 = (-4 : ℚ)/9 by norm_num]
    rw [hcast19]
    rw [min_max_eq_self
      (by linarith [hp19u, show (2443 : ℚ)/10000 * (6412/10000) ≤ 1 by norm_num])
      (by linarith [hp19l, show (0 : ℚ) ≤ 24/100 * (6411/10000) by norm_num])]
  have h18 : sla_metric E 18 20 300 180 =
      .ok (1 - erlang_c_val ((18 : ℕ) : ℚ) 15 * E ((-1 : ℚ)/3)) := by
    unfold sla_metric
    rw [if_neg (by push_neg; refine ⟨by norm_num, by norm_num, by norm_num, by norm_num⟩),
      if_neg (by norm_num)]
    dsimp only
    rw [show (300 : ℚ) / (INTERVAL / 180) = 15 by norm_num [INTERVAL]]
    rw [erlang_c_ok (by norm_num) (by norm_num)]
    dsimp only
    rw [show ((15 : ℚ) - 18) * 20 / 180 = (-1 : ℚ)/3 by norm_num]
    rw [hcast18]
    rw [min_max_eq_self
      (by linarith [hp18u, show (3614 : ℚ)/10000 * (7166/10000) ≤ 1 by norm_num])
      (by linarith [hp18l, show (0 : ℚ) ≤ 36/100 * (7165/10000) by norm_num])]
  refine ⟨hagents, ?_, ?_, ?_, ?_⟩
  · rw [h19]; rfl
  · rw [h19, PyRes.getD_ok]
    linarith [hp19u, show (2443 : ℚ)/10000 * (6412/10000) ≤ 1/5 by norm_num]
  · rw [h18]; rfl
  · rw [h18, PyRes.getD_ok]
    linarith [hp18l, show (1 : ℚ)/5 < 36/100 * (7165/10000) by norm_num]

end ClaimC1

/-- Witness for C1 at the table-backed rational exponential. -/
theorem agents_required_minimal_boundary_witness :
    agents_required expApprox (4/5) 20 300 180 = .ok 19 ∧
    (sla_metric expApprox 19 20 300 180).isOk = true ∧
    4/5 ≤ (sla_metric expApprox 19 20 300 180).getD 0 ∧
    (sla_metric expApprox 18 20 300 180).isOk = true ∧
    (sla_metric expApprox 18 20 300 180).getD 0 < 4/5 :=
  agents_required_minimal_boundary expApprox
    (by norm_num [expApprox]) (by norm_num [expApprox]) (by norm_num [expApprox])
    (by norm_num [expApprox]) (by norm_num [expApprox]) (by norm_num [expApprox])
    (by norm_num [expApprox]) (by norm_num [expApprox])

section ClaimC5

theorem bumpLoop_gt :
    ∀ (fuel n : ℕ) (t : ℚ), 0 < n → (⌊t⌋).toNat < n + fuel →
      (t < ((bumpLoop t fuel n : ℕ) : ℚ)) ∧ n ≤ bumpLoop t fuel n := by
  intro fuel
  induction fuel with
  | zero =>
    intro n t hn hfl
    rw [bumpLoop]
    refine ⟨?_, le_refl n⟩
    rcases lt_or_le t 0 with ht | ht
    · have : (0 : ℚ) < (n : ℚ) := by exact_mod_cast hn
      linarith
    · have hfl0 : 0 ≤ ⌊t⌋ := Int.floor_nonneg.mpr ht
      have h1 : ⌊t⌋ < (n : ℤ) := by omega
      have h2 : t < (⌊t⌋ : ℚ) + 1 := Int.lt_floor_add_one t
      have h3 : ((⌊t⌋ : ℚ)) + 1 ≤ (n : ℚ) := by exact_mod_cast h1
      linarith
  | succ f ih =>
    intro n t hn hfl
    rw [bumpLoop]
    by_cases hc : 1 ≤ t / (n : ℚ)
    · rw [if_pos hc]
      exact ⟨(ih (n + 1) t (by omega) (by omega)).1,
        le_trans (by omega) (ih (n + 1) t (by omega) (by omega)).2⟩
    · rw [if_neg hc]
      refine ⟨?_, le_refl n⟩
      have hnpos : (0 : ℚ) < (n : ℚ) := by exact_mod_cast hn
      have hlt := not_le.mp hc
      rw [div_lt_one hnpos] at hlt
      exact hlt

theorem init_agents_spec (t : ℚ) (erlangs : ℤ) :
    t < ((init_agents t erlangs : ℕ) : ℚ) ∧ 1 ≤ init_agents t erlangs := by
  unfold init_agents bump
  have hseed : 0 < (if erlangs < 1 then 1 else erlangs.toNat) := by
    split
    · norm_num
    · rename_i hge
      push_neg at hge
      omega
  have h := bumpLoop_gt ((⌊t⌋).toNat + 1) (if erlangs < 1 then 1 else erlangs.toNat) t
    hseed (by omega)
  exact ⟨h.1, le_trans hseed h.2⟩

theorem ladderF_step_continue (E : ℚ → ℚ) (t sla st aht : ℚ) (fuel n : ℕ) (slq lastq : ℚ)
    (hg : t / (n : ℚ) < 1)
    (h0 : 0 ≤ 1 - erlang_c_val (n : ℚ) t * E ((t - (n : ℚ)) * st / aht))
    (h1 : 1 - erlang_c_val (n : ℚ) t * E ((t - (n : ℚ)) * st / aht) ≤ 1)
    (hlt : 1 - erlang_c_val (n : ℚ) t * E ((t - (n : ℚ)) * st / aht) < sla)
    (hacc : 1 - erlang_c_val (n : ℚ) t * E ((t - (n : ℚ)) * st / aht) ≤ 1 - config_MAX_ACCURACY) :
    ladderF E t sla st aht (fuel + 1) n slq lastq =
      ladderF E t sla st aht fuel (n + 1)
        (1 - erlang_c_val (n : ℚ) t * E ((t - (n : ℚ)) * st / aht)) slq := by
  rw [ladderF, if_pos hg]
  dsimp only
  rw [if_neg (not_lt.mpr h0), if_neg (not_lt.mpr h1)]
  rw [if_neg (by push_neg; exact ⟨hlt, hacc⟩)]

theorem ladderF_step_break (E : ℚ → ℚ) (t sla st aht : ℚ) (fuel n : ℕ) (slq lastq : ℚ)
    (hg : t / (n : ℚ) < 1)
    (h0 : 0 ≤ 1 - erlang_c_val (n : ℚ) t * E ((t - (n : ℚ)) * st / aht))
    (h1 : 1 - erlang_c_val (n : ℚ) t * E ((t - (n : ℚ)) * st / aht) ≤ 1)
    (hge : sla ≤ 1 - erlang_c_val (n : ℚ) t * E ((t - (n : ℚ)) * st / aht)) :
    ladderF E t sla st aht (fuel + 1) n slq lastq =
      (n, 1 - erlang_c_val (n : ℚ) t * E ((t - (n : ℚ)) * st / aht), slq) := by
  rw [ladderF, if_pos hg]
  dsimp only
  rw [if_neg (not_lt.mpr h0), if_neg (not_lt.mpr h1)]
  rw [if_pos (Or.inl hge)]

theorem slaSample_eq_raw (E : ℚ → ℚ) (t st aht : ℚ) (n : ℕ) :
    slaSample E t st aht n =
      if 1 < slaSampleRaw E t st aht n then 1 else slaSampleRaw E t st aht n := rfl

theorem ladderF_step_eq (E : ℚ → ℚ) (t sla st aht : ℚ) (f n : ℕ) (slq lastq : ℚ)
    (hg : t / (n : ℚ) < 1) :
    ladderF E t sla st aht (f + 1) n slq lastq =
      if sla ≤ slaSample E t st aht n ∨ 1 - config_MAX_ACCURACY < slaSample E t st aht n
        then (n, slaSample E t st aht n, slq)
        else ladderF E t sla st aht f (n + 1) (slaSample E t st aht n) slq := by
  rw [ladderF, if_pos hg]
  rfl

theorem ladderA_step_eq (E : ℚ → ℚ) (t sla st aht : ℚ) (f n : ℕ)
    (hg : t / (n : ℚ) < 1) :
    ladderA E t sla st aht (f + 1) n =
      if sla ≤ slaSampleRaw E t st aht n ∨ 1 - config_MAX_ACCURACY < slaSampleRaw E t st aht n
        then n
        else ladderA E t sla st aht f (n + 1) := by
  rw [ladderA, if_pos hg]
  rfl

/-- Invariant of the fractional staffing ladder: the final agent count
does not decrease, the retained previous sample never exceeds the target,
and when the final sample strictly exceeds the target the final state's
samples are the closed-form service levels at the final count (and, when
the ladder advanced, at its predecessor). -/
theorem ladderF_inv (E : ℚ → ℚ) (t sla st aht : ℚ) :
    ∀ (fuel n : ℕ) (slq lastq : ℚ), 0 < n → t < (n : ℚ) → slq ≤ sla → lastq ≤ sla →
      n ≤ (ladderF E t sla st aht fuel n slq lastq).1 ∧
      (ladderF E t sla st aht fuel n slq lastq).2.2 ≤ sla ∧
      (sla < (ladderF E t sla st aht fuel n slq lastq).2.1 →
        (ladderF E t sla st aht fuel n slq lastq).2.1 =
          slaSample E t st aht (ladderF E t sla st aht fuel n slq lastq).1 ∧
        ((ladderF E t sla st aht fuel n slq lastq).1 = n ∧
            (ladderF E t sla st aht fuel n slq lastq).2.2 = slq ∨
          n < (ladderF E t sla st aht fuel n slq lastq).1 ∧
            (ladderF E t sla st aht fuel n slq lastq).2.2 =
              slaSample E t st aht ((ladderF E t sla st aht fuel n slq lastq).1 - 1))) := by
  intro fuel
  induction fuel with
  | zero =>
    intro n slq lastq hn ht hslq hlastq
    simp only [ladderF]
    exact ⟨le_refl n, hlastq, fun hlt => absurd hlt (not_lt.mpr hslq)⟩
  | succ f ih =>
    intro n slq lastq hn ht hslq hlastq
    have hnpos : (0 : ℚ) < (n : ℚ) := by exact_mod_cast hn
    have hg : t / (n : ℚ) < 1 := (div_lt_one hnpos).mpr ht
    rw [ladderF_step_eq E t sla st aht f n slq lastq hg]
    by_cases hbr : sla ≤ slaSample E t st aht n ∨
        1 - config_MAX_ACCURACY < slaSample E t st aht n
    · rw [if_pos hbr]
      exact ⟨le_refl n, hslq, fun hlt => ⟨rfl, Or.inl ⟨rfl, rfl⟩⟩⟩
    · rw [if_neg hbr]
      push_neg at hbr
      have hSle : slaSample E t st aht n ≤ sla := le_of_lt hbr.1
      have htn1 : t < ((n + 1 : ℕ) : ℚ) := by push_cast; linarith
      have hrec := ih (n + 1) (slaSample E t st aht n) slq (by omega) htn1 hSle hslq
      refine ⟨le_trans (by omega) hrec.1, hrec.2.1, fun hlt => ?_⟩
      obtain ⟨hcorr, hdisj⟩ := hrec.2.2 hlt
      refine ⟨hcorr, Or.inr ?_⟩
      rcases hdisj with ⟨heq, hlast⟩ | ⟨hlt2, hlast⟩
      · refine ⟨by omega, ?_⟩
        rw [hlast, heq]
        norm_num
      · exact ⟨by omega, hlast⟩

/-- The integer ladder of `agents_required` and the fractional ladder of
`fractional_agents` stop at the same agent count (the upper clamp of the
fractional ladder never changes the break decision when `sla ≤ 1`). -/
theorem ladderA_eq_ladderF_fst (E : ℚ → ℚ) (t sla st aht : ℚ) (hsla : sla ≤ 1) :
    ∀ (fuel n : ℕ) (slq lastq : ℚ),
      ladderA E t sla st aht fuel n = (ladderF E t sla st aht fuel n slq lastq).1 := by
  intro fuel
  induction fuel with
  | zero => intro n slq lastq; simp only [ladderA, ladderF]
  | succ f ih =>
    intro n slq lastq
    by_cases hg : t / (n : ℚ) < 1
    · rw [ladderA_step_eq E t sla st aht f n hg, ladderF_step_eq E t sla st aht f n slq lastq hg]
      have hcond : (sla ≤ slaSampleRaw E t st aht n ∨
          1 - config_MAX_ACCURACY < slaSampleRaw E t st aht n) ↔
          (sla ≤ slaSample E t st aht n ∨
          1 - config_MAX_ACCURACY < slaSample E t st aht n) := by
        rw [slaSample_eq_raw]
        by_cases hone : 1 < slaSampleRaw E t st aht n
        · rw [if_pos hone]
          constructor
          · intro hdummy
            exact Or.inl hsla
          · intro hdummy
            exact Or.inl (le_of_lt (lt_of_le_of_lt hsla hone))
        · rw [if_neg hone]
      by_cases hbrR : sla ≤ slaSampleRaw E t st aht n ∨
          1 - config_MAX_ACCURACY < slaSampleRaw E t st aht n
      · rw [if_pos hbrR, if_pos (hcond.mp hbrR)]
      · rw [if_neg hbrR, if_neg (fun hc => hbrR (hcond.mpr hc))]
        exact ih (n + 1) (slaSample E t st aht n) slq
    · rw [ladderA, ladderF, if_neg hg, if_neg hg]
      exact ih (n + 1) slq slq

/-- Claim C5 (amended): for every valid input, `fractional_agents` lies
within `[x − 1, x]` where `x = agents_required(...)` (the claim said
`[floor x, ceil x]`, i.e. `[x, x]`, which the counterexample below
refutes); and whenever the ladder's final service-level sample strictly
exceeds the target, the result equals the linear interpolation
`(sla − sl(N−1)) / (sl(N) − sl(N−1)) + (N−1)` over the retained bracketing
samples — strictly below `x` — where `sl(N)` is the closed-form
service-level sample at the final count `N = x`, and the retained previous
sample is the closed-form sample at `N − 1` whenever the ladder advanced
at least once (on an immediate first-rung break it is the initial 0.0). -/
theorem fractional_agents_bracket (E : ℚ → ℚ) (sla st cph aht : ℚ)
    (hsla : 0 ≤ sla) (hst : 0 ≤ st) (hcph : 0 ≤ cph) (haht : 0 < aht)
    (x : ℕ) (f : ℚ)
    (hx : agents_required E sla st cph aht = .ok x)
    (hf : fractional_agents E sla st cph aht = .ok f) :
    ((x : ℚ) - 1 ≤ f ∧ f ≤ (x : ℚ)) ∧
    x = (ladder_state E sla st cph aht).1 ∧
    (min sla 1 < (ladder_state E sla st cph aht).2.1 →
      f = (min sla 1 - (ladder_state E sla st cph aht).2.2) /
            ((ladder_state E sla st cph aht).2.1 - (ladder_state E sla st cph aht).2.2) +
          ((x : ℚ) - 1) ∧
      f < (x : ℚ) ∧
      (ladder_state E sla st cph aht).2.1 = slaSample E (cph / (INTERVAL / aht)) st aht x ∧
      (init_agents (cph / (INTERVAL / aht)) (pyInt (cph * aht / INTERVAL + 1/2)) < x →
        (ladder_state E sla st cph aht).2.2 =
          slaSample E (cph / (INTERVAL / aht)) st aht (x - 1))) := by
  have hs0 : 0 ≤ min sla 1 := le_min hsla (by norm_num)
  have hs1 : min sla 1 ≤ 1 := min_le_right _ _
  obtain ⟨hts, hn0ge⟩ :=
    init_agents_spec (cph / (INTERVAL / aht)) (pyInt (cph * aht / INTERVAL + 1/2))
  unfold agents_required at hx
  rw [if_neg (by push_neg; exact ⟨hsla, hcph, haht⟩)] at hx
  dsimp only at hx
  unfold fractional_agents at hf
  rw [if_neg (by push_neg; exact ⟨hsla, hcph, haht, hst⟩)] at hf
  dsimp only at hf
  rcases hr : ladderF E (cph / (INTERVAL / aht)) (min sla 1) st aht
      (init_agents (cph / (INTERVAL / aht)) (pyInt (cph * aht / INTERVAL + 1/2)) * 100)
      (init_agents (cph / (INTERVAL / aht)) (pyInt (cph * aht / INTERVAL + 1/2))) 0 0
    with ⟨N, SL, LA⟩
  rw [hr] at hf
  dsimp only at hf
  injection hx with hx1
  injection hf with hf1
  have hls : ladder_state E sla st cph aht = (N, SL, LA) := by
    unfold ladder_state
    dsimp only
    exact hr
  have hinv := ladderF_inv E (cph / (INTERVAL / aht)) (min sla 1) st aht
    (init_agents (cph / (INTERVAL / aht)) (pyInt (cph * aht / INTERVAL + 1/2)) * 100)
    (init_agents (cph / (INTERVAL / aht)) (pyInt (cph * aht / INTERVAL + 1/2))) 0 0
    hn0ge hts hs0 hs0
  rw [hr] at hinv
  dsimp only at hinv
  have hlad := ladderA_eq_ladderF_fst E (cph / (INTERVAL / aht)) (min sla 1) st aht hs1
    (init_agents (cph / (INTERVAL / aht)) (pyInt (cph * aht / INTERVAL + 1/2)) * 100)
    (init_agents (cph / (INTERVAL / aht)) (pyInt (cph * aht / INTERVAL + 1/2))) 0 0
  rw [hr] at hlad
  dsimp only at hlad
  have hxN : x = N := by rw [← hx1, hlad]
  subst hxN
  rw [hls]
  dsimp only
  by_cases hov : min sla 1 < SL
  · rw [if_pos hov] at hf1
    have hLA : LA ≤ min sla 1 := hinv.2.1
    have hden : 0 < SL - LA := by linarith
    have hfr0 : 0 ≤ (min sla 1 - LA) / (SL - LA) := div_nonneg (by linarith) (le_of_lt hden)
    have hfr1 : (min sla 1 - LA) / (SL - LA) < 1 := (div_lt_one hden).mpr (by linarith)
    obtain ⟨hcorr, hdisj⟩ := hinv.2.2 hov
    refine ⟨⟨by rw [← hf1]; linarith, by rw [← hf1]; linarith⟩, rfl,
      fun hdummy => ⟨hf1.symm, by rw [← hf1]; linarith, hcorr, fun hadv => ?_⟩⟩
    rcases hdisj with ⟨heqn, hla0⟩ | ⟨hltn, hlaS⟩
    · omega
    · exact hlaS
  · rw [if_neg hov] at hf1
    exact ⟨⟨by rw [← hf1]; linarith, by rw [← hf1]⟩, rfl, fun hc => absurd hc hov⟩

theorem agents_required_constOne_eval :
    agents_required constOneExp 0 20 300 180 = .ok 16 := by
  have hg16 : (15 : ℚ) / ((16 : ℕ) : ℚ) < 1 := by push_cast; norm_num
  have h0 : 0 ≤ 1 - erlang_c_val ((16 : ℕ) : ℚ) 15 *
      constOneExp ((15 - ((16 : ℕ) : ℚ)) * 20 / 180) := by
    norm_num [constOneExp, erlang_c_val, erlang_b_val, min_max, brec]
  have hstep := ladderA_step_break constOneExp 15 0 20 180 1599 16 hg16 h0 h0
  norm_num at hstep
  unfold agents_required
  rw [if_neg (by push_neg; exact ⟨le_refl 0, by norm_num, by norm_num⟩)]
  dsimp only
  rw [show min (0 : ℚ) 1 = 0 by norm_num]
  rw [show (300 : ℚ) / (INTERVAL / 180) = 15 by norm_num [INTERVAL]]
  rw [show pyInt ((300 : ℚ) * 180 / INTERVAL + 1/2) = 15 by norm_num [INTERVAL, pyInt]]
  rw [show init_agents 15 (15 : ℤ) = 16 by
    unfold init_agents bump
    rw [if_neg (by norm_num : ¬(15 : ℤ) < 1), show (15 : ℤ).toNat = 15 by simp,
      show ((⌊(15 : ℚ)⌋).toNat) = 15 from rfl]
    norm_num [bumpLoop]]
  rw [show (16 * 100 : ℕ) = 1600 by norm_num]
  rw [hstep]

theorem fractional_agents_constOne_eval :
    fractional_agents constOneExp 0 20 300 180 = .ok 15 := by
  have hg16 : (15 : ℚ) / ((16 : ℕ) : ℚ) < 1 := by push_cast; norm_num
  have h0 : 0 ≤ 1 - erlang_c_val ((16 : ℕ) : ℚ) 15 *
      constOneExp ((15 - ((16 : ℕ) : ℚ)) * 20 / 180) := by
    norm_num [constOneExp, erlang_c_val, erlang_b_val, min_max, brec]
  have h1 : 1 - erlang_c_val ((16 : ℕ) : ℚ) 15 *
      constOneExp ((15 - ((16 : ℕ) : ℚ)) * 20 / 180) ≤ 1 := by
    norm_num [constOneExp, erlang_c_val, erlang_b_val, min_max, brec]
  have hpos : 0 < 1 - erlang_c_val ((16 : ℕ) : ℚ) 15 *
      constOneExp ((15 - ((16 : ℕ) : ℚ)) * 20 / 180) := by
    norm_num [constOneExp, erlang_c_val, erlang_b_val, min_max, brec]
  unfold fractional_agents
  rw [if_neg (by push_neg; exact ⟨le_refl 0, by norm_num, by norm_num, by norm_num⟩)]
  dsimp only
  rw [show min (0 : ℚ) 1 = 0 by norm_num]
  rw [show (300 : ℚ) / (INTERVAL / 180) = 15 by norm_num [INTERVAL]]
  rw [show pyInt ((300 : ℚ) * 180 / INTERVAL + 1/2) = 15 by norm_num [INTERVAL, pyInt]]
  rw [show init_agents 15 (15 : ℤ) = 16 by
    unfold init_agents bump
    rw [if_neg (by norm_num : ¬(15 : ℤ) < 1), show (15 : ℤ).toNat = 15 by simp,
      show ((⌊(15 : ℚ)⌋).toNat) = 15 from rfl]
    norm_num [bumpLoop]]
  rw [show (16 * 100 : ℕ) = 1599 + 1 by norm_num]
  rw [ladderF_step_break constOneExp 15 0 20 180 1599 16 0 0 hg16 h0 h1 h0]
  dsimp only
  rw [if_pos hpos]
  norm_num

/-- Counterexample for C5 as stated: at `sla = 0`, `serviceTime = 20`,
`callVolume = 300`, `aht = 180`, `agents_required` returns `x = 16`
(so `[floor x, ceil x] = [16, 16]`) while `fractional_agents` returns 15,
which lies outside that interval. -/
theorem fractional_agents_floor_ceil_counterexample :
    agents_required constOneExp 0 20 300 180 = .ok 16 ∧
    fractional_agents constOneExp 0 20 300 180 = .ok 15 ∧
    ¬((16 : ℚ) ≤ 15) :=
  ⟨agents_required_constOne_eval, fractional_agents_constOne_eval, by norm_num⟩

/-- Witness for the amended C5 at the same concrete input. -/
theorem fractional_agents_bracket_witness :
    agents_required constOneExp 0 20 300 180 = .ok 16 ∧
    fractional_agents constOneExp 0 20 300 180 = .ok 15 ∧
    (16 : ℚ) - 1 ≤ 15 ∧ (15 : ℚ) ≤ 16 := by
  have h := fractional_agents_bracket constOneExp 0 20 300 180 (le_refl 0) (by norm_num)
    (by norm_num) (by norm_num) 16 15 agents_required_constOne_eval
    fractional_agents_constOne_eval
  have hb := h.1
  push_cast at hb
  exact ⟨agents_required_constOne_eval, fractional_agents_constOne_eval, hb.1, hb.2⟩

end ClaimC5
